import Mathlib

/-!
Verification of the execution core of a PostgreSQL client driver
(cursor pipeline, COPY framing and the array codec), as a shallow
embedding of `psycopg3/cursor.py`, `psycopg3/copy.py` and
`types/array.py`.

Byte strings are modelled as `List Nat` (each entry a byte value);
machine integers are `Nat` with explicit reduction modulo 256 where the
source packs fixed-width fields.  Fallible code returns `Except`.
-/

/-- Byte strings (`bytes` in the source) as lists of byte values. -/
abbrev Bytes := List Nat

/-- A decoded row, as produced by `Transformer.load_row`. -/
abbrev Row := List (Option Bytes)

/-- Big-endian 2-byte packing, `struct.Struct("!h").pack` (values reduced mod 2^16). -/
def pack_u16 (n : Nat) : Bytes := [n / 256 % 256, n % 256]

/-- Big-endian 4-byte packing, `struct.Struct("!i")`/`("!I")` (values reduced mod 2^32). -/
def pack_u32 (n : Nat) : Bytes :=
  [n / 16777216 % 256, n / 65536 % 256, n / 256 % 256, n % 256]

/-- Big-endian read of a 4-byte field (the inverse of `pack_u32` on 4-byte lists). -/
def be32 (bs : Bytes) : Nat :=
  match bs with
  | [a, b, c, d] => a * 16777216 + b * 65536 + c * 256 + d
  | _ => 0

/-- `psycopg3.pq.Format`. -/
inductive Format where
  | TEXT
  | BINARY
deriving DecidableEq, Repr

/-- `psycopg3.pq.ExecStatus` (the libpq result statuses used by the driver). -/
inductive ExecStatus where
  | EMPTY_QUERY
  | COMMAND_OK
  | TUPLES_OK
  | COPY_OUT
  | COPY_IN
  | BAD_RESPONSE
  | NONFATAL_ERROR
  | FATAL_ERROR
  | COPY_BOTH
  | SINGLE_TUPLE
deriving DecidableEq, Repr

/-- The enum member name, as Python `ExecStatus(s).name`. -/
def ExecStatus.name : ExecStatus → String
  | .EMPTY_QUERY => "EMPTY_QUERY"
  | .COMMAND_OK => "COMMAND_OK"
  | .TUPLES_OK => "TUPLES_OK"
  | .COPY_OUT => "COPY_OUT"
  | .COPY_IN => "COPY_IN"
  | .BAD_RESPONSE => "BAD_RESPONSE"
  | .NONFATAL_ERROR => "NONFATAL_ERROR"
  | .FATAL_ERROR => "FATAL_ERROR"
  | .COPY_BOTH => "COPY_BOTH"
  | .SINGLE_TUPLE => "SINGLE_TUPLE"

/-- One `PGresult`: status, command tag row count (`command_tuples`, unset as
`none`) and the tuple format (`binary_tuples`).  Immutable after construction. -/
structure PGresult where
  status : ExecStatus
  command_tuples : Option Nat
  binary_tuples : Format
deriving DecidableEq, Repr

/-- The driver's error taxonomy (`psycopg3.errors`).  `serverError` stands for
`error_from_result` applied to the offending result. -/
inductive PgError where
  | interfaceError (msg : String)
  | programmingError (msg : String)
  | dataError (msg : String)
  | internalError (msg : String)
  | serverError (res : PGresult)
  | typeError (msg : String)
deriving DecidableEq, Repr

/-- Wire-level calls issued through the connection handle, recorded as a trace. -/
inductive WireCall where
  | send_prepare (name : Bytes) (query : Bytes)
  | send_query_prepared (name : Bytes) (params : List (Option Bytes))
  | send_query_params (query : Bytes) (params : List (Option Bytes))
  | send_query (query : Bytes)
  | put_copy_data (data : Bytes)
  | put_copy_end (err : Option Bytes)
deriving DecidableEq, Repr

/-- `bytes.join`: concatenate `xs` interleaving the separator `sep`. -/
def bjoin (sep : Bytes) : List Bytes → Bytes
  | [] => []
  | [b] => b
  | b :: c :: r => b ++ sep ++ bjoin sep (c :: r)

/-- `re.sub` for a single-character class pattern: each byte matching `cls` is
replaced by `rep` of it, all other bytes are copied (the regex engine scans
left to right and a one-byte class can only match bytewise). -/
def re_class_sub (cls : Nat → Bool) (rep : Nat → Bytes) : Bytes → Bytes
  | [] => []
  | c :: r => (if cls c then rep c else [c]) ++ re_class_sub cls rep r

/-! ## COPY support (`psycopg3/copy.py`) -/

/-- The byte class of `_bsrepl_re = re.compile(b"[\b\t\n\v\f\r\\\\]")`. -/
def bsrepl_class (c : Nat) : Bool :=
  c = 8 || c = 9 || c = 10 || c = 11 || c = 12 || c = 13 || c = 92

/-- The replacement map of `_bsrepl_sub`: each matched byte maps to its
two-byte backslash escape. -/
def bsrepl_sub (c : Nat) : Bytes :=
  if c = 8 then [92, 98]        -- \b
  else if c = 9 then [92, 116]  -- \t
  else if c = 10 then [92, 110] -- \n
  else if c = 11 then [92, 118] -- \v
  else if c = 12 then [92, 102] -- \f
  else if c = 13 then [92, 114] -- \r
  else [92, 92]                 -- \\ (c = 92)

/-- `BaseCopy._format_row_text`: fields joined by tab, escaped by
`_bsrepl_re.sub(_bsrepl_sub, item)`, `None` encoded as `\N`, row ended by
newline. -/
def format_row_text (row : List (Option Bytes)) : Bytes :=
  bjoin [9]
    (row.map fun item =>
      match item with
      | some b => re_class_sub bsrepl_class bsrepl_sub b
      | none => [92, 78])
  ++ [10]

/-- The 19-byte binary COPY prologue: 11-byte signature `PGCOPY\n\xff\r\n\0`,
4 zero flag bytes, 4 zero extension-length bytes. -/
def binary_signature : Bytes :=
  [80, 71, 67, 79, 80, 89, 10, 255, 13, 10, 0,
   0, 0, 0, 0,
   0, 0, 0, 0]

/-- The body of one binary COPY row (the part of `_format_row_binary` that is
emitted for every row): `int16` field count, then per field `int32` length and
the bytes, with `\xff\xff\xff\xff` for NULL. -/
def binary_row_body (row : List (Option Bytes)) : Bytes :=
  pack_u16 row.length ++
    (row.map fun item =>
      match item with
      | some b => pack_u32 b.length ++ b
      | none => [255, 255, 255, 255]).flatten

/-- State of a COPY session (`BaseCopy` attributes plus the owning cursor's
rowcount, which `_finish`/`read` update). -/
structure CopyState where
  format : Format
  status : ExecStatus
  first_row : Bool
  finished : Bool
  cursor_rowcount : Int
deriving DecidableEq, Repr

/-- `BaseCopy.__init__`: the session starts unfinished, with no row written,
taking format and status from the bound `PGresult`. -/
def BaseCopy.init (res : PGresult) (rowcount : Int) : CopyState :=
  { format := res.binary_tuples
    status := res.status
    first_row := true
    finished := false
    cursor_rowcount := rowcount }

/-- `BaseCopy._format_row_binary`: prepend the 19-byte prologue on the first
row only, then emit the row body; clears `_first_row`. -/
def format_row_binary (s : CopyState) (row : List (Option Bytes)) :
    Bytes × CopyState :=
  if s.first_row then
    (binary_signature ++ binary_row_body row, { s with first_row := false })
  else
    (binary_row_body row, s)

/-- `BaseCopy._format_row`: dump each non-`None` item with the transformer's
dumper for the session format (here the abstract `dump`), keep `None`, then
dispatch on the session format. -/
def format_row {α : Type} (dump : α → Bytes) (s : CopyState)
    (row : List (Option α)) : Bytes × CopyState :=
  let out : List (Option Bytes) := row.map fun item => item.map dump
  match s.format with
  | .TEXT => (format_row_text out, s)
  | .BINARY => format_row_binary s out

/-- `Copy.write` on bytes: one `put_copy_data` chunk on the wire. -/
def Copy.write (s : CopyState) (data : Bytes) : CopyState × List WireCall :=
  (s, [.put_copy_data data])

/-- `Copy.write_row`: format the row for the session and write it. -/
def Copy.write_row {α : Type} (dump : α → Bytes) (s : CopyState)
    (row : List (Option α)) : CopyState × List WireCall :=
  let fr := format_row dump s row
  let w := Copy.write fr.2 fr.1
  (w.1, w.2)

/-- `Copy._finish`: send `put_copy_end` (with the encoded error message, if
any), set the cursor rowcount from the terminal result's `command_tuples`
(−1 when unset) and mark the session finished.  `res` is the terminal result
the server answers to `copy_end`. -/
def Copy.finish (s : CopyState) (error : Option Bytes) (res : PGresult) :
    CopyState × List WireCall :=
  let nrows : Int := match res.command_tuples with
    | some n => (n : Int)
    | none => -1
  ({ s with cursor_rowcount := nrows, finished := true },
   [.put_copy_end error])

/-- `Copy.__enter__`: re-entering a finished session is a `TypeError`. -/
def Copy.enter (s : CopyState) : Except PgError CopyState :=
  if s.finished then .error (.typeError "copy blocks can be used only once")
  else .ok s

/-- `Copy.__exit__`: no-op for COPY OUT; on clean exit of a binary COPY IN
that wrote at least one row, emit the 2-byte `\xff\xff` trailer, then finish;
on abrupt exit finish with the error message (`exc`, already formatted and
encoded as in `error from Python: ...`).  `res` is the terminal result of
`copy_end`. -/
def Copy.exit (s : CopyState) (exc : Option Bytes) (res : PGresult) :
    CopyState × List WireCall :=
  if s.status = .COPY_OUT then (s, [])
  else
    match exc with
    | none =>
        let step : CopyState × List WireCall :=
          if s.format = .BINARY && !s.first_row then
            Copy.write s [255, 255]
          else (s, [])
        let fin := Copy.finish step.1 none res
        (fin.1, step.2 ++ fin.2)
    | some msg =>
        Copy.finish s (some msg) res

/-- What one `Copy.read` consumes: either a data chunk or the terminal result
(`conn.wait(copy_from(...))` returns bytes or the final `PGresult`). -/
inductive ReadEvent where
  | data (b : Bytes)
  | done (res : PGresult)
deriving DecidableEq, Repr

/-- `Copy.read`: empty bytes forever once finished; otherwise a data chunk is
returned as is, and the terminal result finishes the session and sets the
cursor rowcount. -/
def Copy.read (s : CopyState) (ev : ReadEvent) : Bytes × CopyState :=
  if s.finished then ([], s)
  else
    match ev with
    | .data b => (b, s)
    | .done res =>
        let nrows : Int := match res.command_tuples with
          | some n => (n : Int)
          | none => -1
        ([], { s with finished := true, cursor_rowcount := nrows })

/-- Run a sequence of `write_row` calls, accumulating the wire trace. -/
def Copy.write_rows {α : Type} (dump : α → Bytes) (s : CopyState) :
    List (List (Option α)) → CopyState × List WireCall
  | [] => (s, [])
  | row :: rest =>
      let w := Copy.write_row dump s row
      let r := Copy.write_rows dump w.1 rest
      (r.1, w.2 ++ r.2)

/-- The data bytes a wire trace puts on the COPY channel (contents of the
`put_copy_data` frames, in order). -/
def wire_data : List WireCall → Bytes
  | [] => []
  | .put_copy_data d :: r => d ++ wire_data r
  | _ :: r => wire_data r

/-- A fresh binary COPY IN session (bound result has status `CopyIn` and
binary tuples). -/
def copy_in_binary_session : CopyState :=
  BaseCopy.init { status := .COPY_IN, command_tuples := none,
                  binary_tuples := .BINARY } (-1)

/-- The full wire trace of a binary COPY IN session that writes `rows` via
`write_row` and then exits the guarded block normally (`res` being the
server's answer to `copy_end`). -/
def copy_in_binary_trace {α : Type} (dump : α → Bytes)
    (rows : List (List (Option α))) (res : PGresult) : List WireCall :=
  let w := Copy.write_rows dump copy_in_binary_session rows
  let ex := Copy.exit w.1 none res
  w.2 ++ ex.2

/-! ## Cursor core (`psycopg3/cursor.py`) -/

/-- Membership in `BaseCursor._status_ok = {TUPLES_OK, COMMAND_OK, EMPTY_QUERY}`. -/
def status_ok (s : ExecStatus) : Bool :=
  s = .TUPLES_OK || s = .COMMAND_OK || s = .EMPTY_QUERY

/-- Membership in `BaseCursor._status_copy = {COPY_IN, COPY_OUT, COPY_BOTH}`. -/
def status_copy (s : ExecStatus) : Bool :=
  s = .COPY_IN || s = .COPY_OUT || s = .COPY_BOTH

/-- Cursor state (`BaseCursor` attributes the execution pipeline touches). -/
structure CursorState where
  closed : Bool
  format : Format
  arraysize : Nat
  results : List PGresult
  pgresult : Option PGresult
  pos : Nat
  iresult : Nat
  rowcount : Int
  query : Option Bytes
  params : Option (List (Option Bytes))
deriving DecidableEq, Repr

/-- `BaseCursor._reset`. -/
def CursorState.reset (c : CursorState) : CursorState :=
  { c with results := [], pgresult := none, pos := 0, iresult := 0,
           rowcount := -1, query := none, params := none }

/-- A fresh open text-format cursor (`BaseCursor.__init__` with defaults). -/
def CursorState.fresh : CursorState :=
  CursorState.reset
    { closed := false, format := .TEXT, arraysize := 1, results := [],
      pgresult := none, pos := 0, iresult := 0, rowcount := -1,
      query := none, params := none }

/-- `BaseCursor._start_query`: refuse a closed cursor, then reset.  (The
connection-side checks live in the connection module, outside the embedded
core, and are elided.) -/
def BaseCursor.start_query (c : CursorState) : Except PgError CursorState :=
  if c.closed then .error (.interfaceError "the cursor is closed")
  else .ok c.reset

/-- List insertion into a string-sorted list (for the sorted error message). -/
def str_insort (s : String) : List String → List String
  | [] => [s]
  | t :: r => if s < t then s :: t :: r else t :: str_insort s r

/-- String sorting, as Python `sorted` on the status names. -/
def str_sorted : List String → List String
  | [] => []
  | s :: r => str_insort s (str_sorted r)

/-- The distinct bad statuses of a result list (`{res.status} - _status_ok`
as a set, here as a deduplicated list). -/
def bad_statuses (results : List PGresult) : List ExecStatus :=
  (results.map PGresult.status).filter (fun s => !status_ok s) |>.dedup

/-- `BaseCursor._execute_results`: triage of the result list after waiting.
All-OK statuses are accepted (results stored, first result exposed, rowcount
updated from its `command_tuples`); otherwise a trailing `FatalError` raises
the decoded server error, any COPY status raises `ProgrammingError`, and
anything else raises `InternalError`. -/
def BaseCursor.execute_results (c : CursorState) (results : List PGresult) :
    Except PgError CursorState :=
  match results with
  | [] => .error (.internalError "got no result from the query")
  | r0 :: rest =>
      if (r0 :: rest).all (fun r => status_ok r.status) then
        let c1 := { c with results := r0 :: rest, pgresult := some r0 }
        match r0.command_tuples with
        | some nrows =>
            if c1.rowcount < 0 then .ok { c1 with rowcount := (nrows : Int) }
            else .ok { c1 with rowcount := c1.rowcount + (nrows : Int) }
        | none => .ok c1
      else
        let last := (r0 :: rest).getLast (List.cons_ne_nil r0 rest)
        if last.status = .FATAL_ERROR then
          .error (.serverError last)
        else if ((r0 :: rest).any (fun r => status_copy r.status)) then
          .error (.programmingError
            "COPY cannot be used with execute(); use copy() insead")
        else
          .error (.internalError
            ("got unexpected status from query: " ++
              String.intercalate ", "
                (str_sorted ((bad_statuses (r0 :: rest)).map ExecStatus.name))))

/-- `BaseCursor._execute_send` (the `PostgresQuery` conversion, whose module
is outside the embedded core, passes the query text and the dumped parameters
through): parameterized, explicitly single-statement or binary-format
executions go through `send_query_params`, anything else through
`send_query`. -/
def Cursor.execute_send (c : CursorState) (query : Bytes)
    (params : List (Option Bytes)) (no_pqexec : Bool) :
    CursorState × WireCall :=
  if params ≠ [] || no_pqexec || c.format = .BINARY then
    ({ c with query := some query, params := some params },
     .send_query_params query params)
  else
    ({ c with query := some query, params := none },
     .send_query query)

/-- `Cursor.execute`: start the query, send it, then triage the results the
server answers (`server`). -/
def Cursor.execute (c : CursorState) (query : Bytes)
    (params : List (Option Bytes)) (server : List PGresult) :
    Except PgError CursorState × List WireCall :=
  match BaseCursor.start_query c with
  | .error err => (.error err, [])
  | .ok c1 =>
      let sd := Cursor.execute_send c1 query params false
      (BaseCursor.execute_results sd.1 server, [sd.2])

/-- The compiled query `PostgresQuery` carries between `executemany`
iterations.  Modelled from the spec: the query-builder module is not part of
the embedded core; `convert` pairs the query text with the dumped parameters
and `dump(params)` re-binds fresh parameters on the same compiled query. -/
structure PostgresQuery where
  query : Bytes
  params : List (Option Bytes)
deriving DecidableEq, Repr

/-- `BaseCursor._send_prepare`: convert the query, record it on the cursor and
send `send_prepare` under the given statement name. -/
def BaseCursor.send_prepare (c : CursorState) (name : Bytes) (query : Bytes)
    (params : List (Option Bytes)) :
    (CursorState × PostgresQuery) × WireCall :=
  (({ c with query := some query }, { query := query, params := params }),
   .send_prepare name query)

/-- `BaseCursor._send_query_prepared`: record the parameters and send
`send_query_prepared` under the given statement name. -/
def BaseCursor.send_query_prepared (c : CursorState) (name : Bytes)
    (pgq : PostgresQuery) : CursorState × WireCall :=
  ({ c with params := some pgq.params }, .send_query_prepared name pgq.params)

/-- The loop body of `Cursor.executemany`, one recursive call per element of
`params_seq`.  `server` feeds one `PGresult` per wait (the prepared-statement
protocol produces exactly one result per round trip, matching the source's
`(result,) = self._conn.wait(gen)` destructuring; running out of results is
the destructuring error).  The `first` flag is threaded exactly as the source
does: it is initialized to `True` by `executemany` and never reassigned. -/
def Cursor.executemany_loop (query : Bytes) (c : CursorState)
    (pgq : Option PostgresQuery) (first : Bool) :
    List (List (Option Bytes)) → List PGresult →
    List WireCall × Except PgError CursorState
  | [], _ => ([], .ok c)
  | ps :: restseq, server =>
      if first then
        let sp := BaseCursor.send_prepare c [] query ps
        match server with
        | [] => ([sp.2], .error (.internalError "not enough values to unpack"))
        | r1 :: server1 =>
            if r1.status = .FATAL_ERROR then
              ([sp.2], .error (.serverError r1))
            else
              let sq := BaseCursor.send_query_prepared sp.1.1 [] sp.1.2
              match server1 with
              | [] => ([sp.2, sq.2],
                       .error (.internalError "not enough values to unpack"))
              | r2 :: server2 =>
                  match BaseCursor.execute_results sq.1 [r2] with
                  | .error err => ([sp.2, sq.2], .error err)
                  | .ok c3 =>
                      let rec_ := Cursor.executemany_loop query c3
                        (some sp.1.2) first restseq server2
                      (sp.2 :: sq.2 :: rec_.1, rec_.2)
      else
        match pgq with
        | none =>
            -- `pgq` unassigned: the source would hit an unbound local here;
            -- unreachable because `first` never becomes false.
            ([], .error (.internalError "pgq referenced before assignment"))
        | some q0 =>
            let pgq1 : PostgresQuery := { q0 with params := ps }
            let sq := BaseCursor.send_query_prepared c [] pgq1
            match server with
            | [] => ([sq.2],
                     .error (.internalError "not enough values to unpack"))
            | r2 :: server2 =>
                match BaseCursor.execute_results sq.1 [r2] with
                | .error err => ([sq.2], .error err)
                | .ok c3 =>
                    let rec_ := Cursor.executemany_loop query c3
                      (some pgq1) first restseq server2
                    (sq.2 :: rec_.1, rec_.2)

/-- `Cursor.executemany`: start the query, then run the loop with
`first = True`. -/
def Cursor.executemany (c : CursorState) (query : Bytes)
    (params_seq : List (List (Option Bytes))) (server : List PGresult) :
    List WireCall × Except PgError CursorState :=
  match BaseCursor.start_query c with
  | .error err => ([], .error err)
  | .ok c1 => Cursor.executemany_loop query c1 none true params_seq server

/-- Number of `send_prepare` calls in a wire trace. -/
def count_prepares (ws : List WireCall) : Nat :=
  (ws.filter fun w =>
    match w with
    | .send_prepare _ _ => true
    | _ => false).length

/-- `BaseCursor._check_result`: fetch operations demand a current result with
status `TUPLES_OK`. -/
def BaseCursor.check_result (c : CursorState) : Except PgError Unit :=
  match c.pgresult with
  | none => .error (.programmingError "no result available")
  | some res =>
      if res.status = .TUPLES_OK then .ok ()
      else .error (.programmingError "the last operation did not produce a result")

/-- `Cursor.fetchone`: load the row at the current position (through the
transformer's `load_row`, here the abstract `load_row`), advancing the
position only when a row came back. -/
def Cursor.fetchone (load_row : Nat → Option Row) (c : CursorState) :
    Except PgError (Option Row × CursorState) :=
  match BaseCursor.check_result c with
  | .error err => .error err
  | .ok _ =>
      match load_row c.pos with
      | some rv => .ok (some rv, { c with pos := c.pos + 1 })
      | none => .ok (none, c)

/-- The `for _ in range(size)` loop of `Cursor.fetchmany`: load up to `size`
rows starting at `pos`, stopping at the first missing row; returns the rows
and the final position. -/
def Cursor.fetchmany_loop (load_row : Nat → Option Row) (pos : Nat) :
    Nat → List Row × Nat
  | 0 => ([], pos)
  | size + 1 =>
      match load_row pos with
      | none => ([], pos)
      | some row =>
          let r := Cursor.fetchmany_loop load_row (pos + 1) size
          (row :: r.1, r.2)

/-- `Cursor.fetchmany`: size 0 falls back to `arraysize`; then the loop. -/
def Cursor.fetchmany (load_row : Nat → Option Row) (c : CursorState)
    (size : Nat) : Except PgError (List Row × CursorState) :=
  match BaseCursor.check_result c with
  | .error err => .error err
  | .ok _ =>
      let size1 := if size = 0 then c.arraysize else size
      let r := Cursor.fetchmany_loop load_row c.pos size1
      .ok (r.1, { c with pos := r.2 })

/-- `k` executed iterations of the `while 1` body of `Cursor.__iter__` (the
loop stops as soon as `load_row` yields nothing; indexing by the number of
executed iterations makes the unbounded loop a total function).  The body is
the same stepping as `fetchmany_loop`. -/
def Cursor.iter_loop (load_row : Nat → Option Row) (pos : Nat) :
    Nat → List Row × Nat
  | 0 => ([], pos)
  | k + 1 =>
      match load_row pos with
      | none => ([], pos)
      | some row =>
          let r := Cursor.iter_loop load_row (pos + 1) k
          (row :: r.1, r.2)

/-- Iterated `fetchone`: the outputs of `k` successive calls and the final
cursor (errors stop the iteration; they do not occur under a `TUPLES_OK`
result). -/
def Cursor.run_fetchone (load_row : Nat → Option Row) (c : CursorState) :
    Nat → List (Option Row) × CursorState
  | 0 => ([], c)
  | k + 1 =>
      match Cursor.fetchone load_row c with
      | .error _ => ([], c)
      | .ok (r, c1) =>
          let rest := Cursor.run_fetchone load_row c1 k
          (r :: rest.1, rest.2)

/-! ## Theorems: COPY framing and session lifecycle -/

theorem wire_data_append (a b : List WireCall) :
    wire_data (a ++ b) = wire_data a ++ wire_data b := by
  induction a with
  | nil => simp [wire_data]
  | cons w r ih =>
      cases w <;> simp [wire_data, ih]

theorem wire_data_map_put {α : Type} (f : α → Bytes) (xs : List α) :
    wire_data (xs.map fun x => .put_copy_data (f x)) = (xs.map f).flatten := by
  induction xs with
  | nil => simp [wire_data]
  | cons x r ih => simp [wire_data, ih]

theorem write_rows_steady {α : Type} (dump : α → Bytes) (s : CopyState)
    (rows : List (List (Option α)))
    (h1 : s.first_row = false) (h2 : s.format = .BINARY) :
    Copy.write_rows dump s rows =
      (s, rows.map fun r =>
        .put_copy_data (binary_row_body (r.map (Option.map dump)))) := by
  induction rows generalizing s with
  | nil => simp [Copy.write_rows]
  | cons row rest ih =>
      simp only [Copy.write_rows, Copy.write_row, format_row, h2,
        format_row_binary, h1, Copy.write, if_neg Bool.false_ne_true, ih s h1 h2]
      simp

/-- C3.  For every binary COPY-IN session, writing `K >= 1` rows via
`write_row` and then exiting the guarded block normally puts on the wire
exactly one 19-byte prologue immediately before the first row's bytes and
exactly one 2-byte `\xff\xff` trailer after the last row's bytes; writing
zero rows produces neither the prologue nor the trailer (no data frame at
all). -/
theorem copy_in_binary_framing {α : Type} (dump : α → Bytes)
    (rows : List (List (Option α))) (res : PGresult) :
    wire_data (copy_in_binary_trace dump rows res) =
      match rows with
      | [] => []
      | _ :: _ =>
          binary_signature ++
            (rows.map fun r => binary_row_body (r.map (Option.map dump))).flatten
            ++ [255, 255] := by
  cases rows with
  | nil =>
      simp [copy_in_binary_trace, Copy.write_rows, Copy.exit,
        copy_in_binary_session, BaseCopy.init, Copy.finish, wire_data]
  | cons row rest =>
      have hsession :
          Copy.write_rows dump copy_in_binary_session (row :: rest) =
            (({ copy_in_binary_session with first_row := false }),
              .put_copy_data
                (binary_signature ++ binary_row_body (row.map (Option.map dump)))
              :: (rest.map fun r =>
                   .put_copy_data (binary_row_body (r.map (Option.map dump))))) := by
        simp only [Copy.write_rows, Copy.write_row, format_row,
          copy_in_binary_session, BaseCopy.init, format_row_binary, Copy.write]
        rw [write_rows_steady dump _ rest rfl rfl]
        simp
      simp only [copy_in_binary_trace, hsession]
      simp only [Copy.exit, Copy.write, Copy.finish]
      simp [wire_data, wire_data_append, wire_data_map_put]

/-- C4 (amended).  Exiting a COPY IN session's guarded block, normally or
abruptly, finishes the session, and entering a finished session raises
`TypeError`; likewise a COPY OUT session that has consumed its terminal
result is finished and cannot be re-entered.  (A COPY OUT session whose
block exits before the terminal result was read is not finished and its
re-entry succeeds; see the counterexample.) -/
theorem copy_single_shot (sIn sOut : CopyState) (exc : Option Bytes)
    (res res2 : PGresult) (hin : sIn.status = .COPY_IN) :
    Copy.enter (Copy.exit sIn exc res).1 =
      .error (.typeError "copy blocks can be used only once")
    ∧ Copy.enter ((Copy.read sOut (.done res2)).2) =
      .error (.typeError "copy blocks can be used only once") := by
  constructor
  · have hne : sIn.status ≠ ExecStatus.COPY_OUT := by
      rw [hin]; intro h; cases h
    cases exc with
    | none =>
        simp only [Copy.exit, if_neg hne]
        by_cases hb : sIn.format = .BINARY && !sIn.first_row
        · simp [hb, Copy.write, Copy.finish, Copy.enter]
        · simp [hb, Copy.finish, Copy.enter]
    | some m =>
        simp [Copy.exit, if_neg hne, Copy.finish, Copy.enter]
  · by_cases hf : sOut.finished
    · simp [Copy.read, hf, Copy.enter]
    · simp [Copy.read, hf, Copy.enter]

/-- Witness for `copy_single_shot` at a concrete COPY IN session. -/
theorem copy_single_shot_witness :
    Copy.enter (Copy.exit copy_in_binary_session none
        { status := .COMMAND_OK, command_tuples := some 2,
          binary_tuples := .TEXT }).1 =
      .error (.typeError "copy blocks can be used only once")
    ∧ Copy.enter ((Copy.read copy_in_binary_session
        (.done { status := .COMMAND_OK, command_tuples := some 2,
                 binary_tuples := .TEXT })).2) =
      .error (.typeError "copy blocks can be used only once") :=
  copy_single_shot copy_in_binary_session copy_in_binary_session none _ _ rfl

/-- A fresh text COPY OUT session. -/
def copy_out_text_session : CopyState :=
  BaseCopy.init { status := .COPY_OUT, command_tuples := none,
                  binary_tuples := .TEXT } (-1)

/-- C4 counterexample.  A COPY OUT session whose guarded block exits without
having read the terminal result is not finished, and entering it again
succeeds (no `TypeError`), contradicting the claim for COPY OUT sessions. -/
theorem copy_out_reenter_ok :
    Copy.enter (Copy.exit copy_out_text_session none
        { status := .COMMAND_OK, command_tuples := some 2,
          binary_tuples := .TEXT }).1 = .ok copy_out_text_session := rfl

theorem re_class_sub_flatMap (cls : Nat → Bool) (rep : Nat → Bytes)
    (bs : Bytes) :
    re_class_sub cls rep bs = bs.flatMap fun c => if cls c then rep c else [c] := by
  induction bs with
  | nil => simp [re_class_sub]
  | cons c r ih => simp [re_class_sub, ih]

theorem bsrepl_byte_eq (c : Nat) :
    (if bsrepl_class c then bsrepl_sub c else [c]) =
      (if c = 8 then [92, 98]
       else if c = 9 then [92, 116]
       else if c = 10 then [92, 110]
       else if c = 11 then [92, 118]
       else if c = 12 then [92, 102]
       else if c = 13 then [92, 114]
       else if c = 92 then [92, 92]
       else [c]) := by
  by_cases h8 : c = 8
  · subst h8; decide
  by_cases h9 : c = 9
  · subst h9; decide
  by_cases h10 : c = 10
  · subst h10; decide
  by_cases h11 : c = 11
  · subst h11; decide
  by_cases h12 : c = 12
  · subst h12; decide
  by_cases h13 : c = 13
  · subst h13; decide
  by_cases h92 : c = 92
  · subst h92; decide
  · simp [bsrepl_class, h8, h9, h10, h11, h12, h13, h92]

/-- C8.  The text-COPY row formatter joins the dumped fields with the single
byte `\t` (9) and terminates the row with `\n` (10); in each non-nil field
exactly the bytes BS(8) TAB(9) LF(10) VT(11) FF(12) CR(13) and backslash(92)
are replaced by their two-byte backslash escapes and every other byte passes
through unchanged; a nil field becomes the two bytes `\N` (92 78). -/
theorem text_row_escaping (row : List (Option Bytes)) :
    format_row_text row =
      bjoin [9]
        (row.map fun f =>
          match f with
          | none => [92, 78]
          | some bs => bs.flatMap fun c =>
              if c = 8 then [92, 98]
              else if c = 9 then [92, 116]
              else if c = 10 then [92, 110]
              else if c = 11 then [92, 118]
              else if c = 12 then [92, 102]
              else if c = 13 then [92, 114]
              else if c = 92 then [92, 92]
              else [c])
      ++ [10] := by
  have hfun :
      (fun f : Option Bytes =>
        match f with
        | some b => re_class_sub bsrepl_class bsrepl_sub b
        | none => [92, 78]) =
      (fun f : Option Bytes =>
        match f with
        | none => [92, 78]
        | some bs => bs.flatMap fun c =>
            if c = 8 then [92, 98]
            else if c = 9 then [92, 116]
            else if c = 10 then [92, 110]
            else if c = 11 then [92, 118]
            else if c = 12 then [92, 102]
            else if c = 13 then [92, 114]
            else if c = 92 then [92, 92]
            else [c]) := by
    funext f
    cases f with
    | none => rfl
    | some bs =>
        simp only [re_class_sub_flatMap]
        congr 1
        funext c
        exact bsrepl_byte_eq c
  rw [format_row_text, hfun]

/-! ## Theorems: cursor pipeline -/

/-- A successful one-row `COMMAND_OK` result, as the server answers both the
prepare and the execute round trips of `executemany`. -/
def ok_result : PGresult :=
  { status := .COMMAND_OK, command_tuples := some 1, binary_tuples := .TEXT }

/-- C1 (code bug evidence).  Running `executemany` with a two-element
parameter sequence sends `send_prepare` twice — once per iteration — because
the `first` flag is initialized to `True` but never set to `False`, so the
re-binding branch (`pgq.dump(params)`) is unreachable.  The claim (and the
spec) require exactly one `send_prepare` over the whole operation. -/
theorem executemany_prepares_per_iteration :
    count_prepares
      (Cursor.executemany CursorState.fresh [113]
        [[some [49]], [some [50]]]
        [ok_result, ok_result, ok_result, ok_result]).1 = 2
    ∧ (Cursor.executemany CursorState.fresh [113]
        [[some [49]], [some [50]]]
        [ok_result, ok_result, ok_result, ok_result]).2 =
      .ok { CursorState.fresh.reset with
              results := [ok_result], pgresult := some ok_result,
              rowcount := 2, query := some [113],
              params := some [some [50]] } := by
  constructor
  · rfl
  · rfl

/-- The rowcount the claim ascribes to a result list: the sum of
`command_tuples` over the results where it is defined, and −1 when it is
defined for none (this definition follows the claim's words, for comparison
with the embedded code). -/
def claimed_rowcount (results : List PGresult) : Int :=
  let ds := results.filterMap PGresult.command_tuples
  if ds.isEmpty then -1 else ((ds.map fun n => (n : Int)).sum)

/-- C2 counterexample.  For an `execute` returning two `COMMAND_OK` results
with `command_tuples` 2 and 3 (a multi-statement simple query), the code sets
`rowcount` from the first result only (2), while the claim's sum over all
results is 5. -/
theorem execute_rowcount_not_sum :
    (Cursor.execute CursorState.fresh [113] []
        [{ status := .COMMAND_OK, command_tuples := some 2,
           binary_tuples := .TEXT },
         { status := .COMMAND_OK, command_tuples := some 3,
           binary_tuples := .TEXT }]).1.map CursorState.rowcount = .ok 2
    ∧ claimed_rowcount
        [{ status := .COMMAND_OK, command_tuples := some 2,
           binary_tuples := .TEXT },
         { status := .COMMAND_OK, command_tuples := some 3,
           binary_tuples := .TEXT }] = 5
    ∧ (2 : Int) ≠ 5 := by
  refine ⟨rfl, rfl, ?_⟩
  decide

theorem execute_send_fields (c : CursorState) (q : Bytes)
    (ps : List (Option Bytes)) (b : Bool) :
    (Cursor.execute_send c q ps b).1.rowcount = c.rowcount
    ∧ (Cursor.execute_send c q ps b).1.results = c.results := by
  unfold Cursor.execute_send
  split <;> simp

/-- C2 (amended).  After a successful `execute` whose results all have OK
statuses, the cursor's `rowcount` equals `command_tuples` of the *first*
result when it is defined there, and −1 otherwise (the remaining results'
counts are not added: `_execute_results` reads `command_tuples` from
`results[0]` only, on a cursor whose rowcount was reset to −1 by
`_start_query`). -/
theorem execute_rowcount_first_result (c : CursorState) (q : Bytes)
    (ps : List (Option Bytes)) (r0 : PGresult) (rest : List PGresult)
    (hopen : c.closed = false)
    (hok : ((r0 :: rest).all fun r => status_ok r.status) = true) :
    ∃ c', (Cursor.execute c q ps (r0 :: rest)).1 = .ok c'
      ∧ c'.rowcount = (match r0.command_tuples with
          | some n => (n : Int)
          | none => -1) := by
  unfold Cursor.execute
  simp only [BaseCursor.start_query, hopen, Bool.false_eq_true, if_false]
  unfold BaseCursor.execute_results
  have hrc : (Cursor.execute_send c.reset q ps false).1.rowcount = -1 := by
    rw [(execute_send_fields c.reset q ps false).1]; rfl
  simp only [hok, if_pos]
  cases hct : r0.command_tuples with
  | some n =>
      simp only [hct, hrc]
      refine ⟨_, rfl, ?_⟩
      simp
  | none =>
      simp only [hct]
      refine ⟨_, rfl, ?_⟩
      simp [hrc]

/-- Witness for `execute_rowcount_first_result` at a concrete input. -/
theorem execute_rowcount_first_result_witness :
    ∃ c', (Cursor.execute CursorState.fresh [113] []
        [{ status := .TUPLES_OK, command_tuples := none,
           binary_tuples := .TEXT }]).1 = .ok c'
      ∧ c'.rowcount = (match (none : Option Nat) with
          | some n => (n : Int)
          | none => -1) :=
  execute_rowcount_first_result CursorState.fresh [113] []
    { status := .TUPLES_OK, command_tuples := none, binary_tuples := .TEXT }
    [] rfl rfl

/-- C7.  Triage of a non-empty result sequence after `execute`: all statuses
in `{TuplesOk, CommandOk, EmptyQuery}` are accepted; otherwise a last result
with status `FatalError` raises the decoded server error; otherwise any COPY
status raises `ProgrammingError`; otherwise `InternalError` is raised. -/
theorem execute_results_triage (c : CursorState) (results : List PGresult)
    (r0 : PGresult) (rest : List PGresult) (lastr : PGresult)
    (h : results = r0 :: rest) (hlast : results.getLast? = some lastr) :
    ((results.all fun r => status_ok r.status) = true →
      ∃ c', BaseCursor.execute_results c results = .ok c')
    ∧ ((results.all fun r => status_ok r.status) = false →
        lastr.status = .FATAL_ERROR →
        BaseCursor.execute_results c results = .error (.serverError lastr))
    ∧ ((results.all fun r => status_ok r.status) = false →
        lastr.status ≠ .FATAL_ERROR →
        (results.any fun r => status_copy r.status) = true →
        BaseCursor.execute_results c results = .error (.programmingError
          "COPY cannot be used with execute(); use copy() insead"))
    ∧ ((results.all fun r => status_ok r.status) = false →
        lastr.status ≠ .FATAL_ERROR →
        (results.any fun r => status_copy r.status) = false →
        ∃ msg, BaseCursor.execute_results c results =
          .error (.internalError msg)) := by
  subst h
  have hlast' : (r0 :: rest).getLast (List.cons_ne_nil r0 rest) = lastr := by
    rwa [List.getLast?_eq_getLast (r0 :: rest) (List.cons_ne_nil r0 rest),
      Option.some_inj] at hlast
  refine ⟨?_, ?_, ?_, ?_⟩
  · intro hok
    unfold BaseCursor.execute_results
    simp only [hok, if_pos]
    cases r0.command_tuples with
    | some n =>
        by_cases hrc : c.rowcount < 0 <;> simp [hrc]
    | none => exact ⟨_, rfl⟩
  · intro hok hfatal
    unfold BaseCursor.execute_results
    simp [hok, hlast', hfatal]
  · intro hok hfatal hcopy
    unfold BaseCursor.execute_results
    simp [hok, hlast', hfatal, hcopy]
  · intro hok hfatal hcopy
    unfold BaseCursor.execute_results
    simp [hok, hlast', hfatal, hcopy]

/-- A fatal result, for the triage witness. -/
def fatal_result : PGresult :=
  { status := .FATAL_ERROR, command_tuples := none, binary_tuples := .TEXT }

/-- Witness for `execute_results_triage`: a single fatal result. -/
theorem execute_results_triage_witness :
    (([fatal_result].all fun r => status_ok r.status) = true →
      ∃ c', BaseCursor.execute_results CursorState.fresh [fatal_result] = .ok c')
    ∧ (([fatal_result].all fun r => status_ok r.status) = false →
        fatal_result.status = .FATAL_ERROR →
        BaseCursor.execute_results CursorState.fresh [fatal_result] =
          .error (.serverError fatal_result))
    ∧ (([fatal_result].all fun r => status_ok r.status) = false →
        fatal_result.status ≠ .FATAL_ERROR →
        ([fatal_result].any fun r => status_copy r.status) = true →
        BaseCursor.execute_results CursorState.fresh [fatal_result] =
          .error (.programmingError
            "COPY cannot be used with execute(); use copy() insead"))
    ∧ (([fatal_result].all fun r => status_ok r.status) = false →
        fatal_result.status ≠ .FATAL_ERROR →
        ([fatal_result].any fun r => status_copy r.status) = false →
        ∃ msg, BaseCursor.execute_results CursorState.fresh [fatal_result] =
          .error (.internalError msg)) :=
  execute_results_triage CursorState.fresh [fatal_result] fatal_result []
    fatal_result rfl rfl

theorem run_fetchone_past_end (rows : List Row) (res : PGresult)
    (hst : res.status = .TUPLES_OK) :
    ∀ (k : Nat) (c : CursorState), c.pgresult = some res →
      rows.length ≤ c.pos →
      Cursor.run_fetchone (fun i => rows[i]?) c k =
        (List.replicate k none, c) := by
  intro k
  induction k with
  | zero => intro c _ _; rfl
  | succ k ih =>
      intro c hres hlen
      have hload : rows[c.pos]? = none := by
        simp [List.getElem?_eq_none_iff, hlen]
      simp only [Cursor.run_fetchone, Cursor.fetchone, BaseCursor.check_result,
        hres, hst, if_pos, hload]
      rw [ih c hres hlen]
      simp [List.replicate_succ]

theorem map_range_replicate_none {β : Type} (f : Nat → Option β) (n : Nat)
    (h : ∀ j, j < n → f j = none) :
    (List.range n).map f = List.replicate n none := by
  induction n with
  | zero => rfl
  | succ n ih =>
      rw [List.range_succ, List.map_append,
        ih (fun j hj => h j (Nat.lt_succ_of_lt hj)), List.replicate_succ']
      simp [h n (Nat.lt_succ_self n)]

theorem run_fetchone_spec (rows : List Row) (res : PGresult)
    (hst : res.status = .TUPLES_OK) :
    ∀ (k : Nat) (c : CursorState), c.pgresult = some res →
      (Cursor.run_fetchone (fun i => rows[i]?) c k).1 =
        (List.range k).map (fun j => rows[c.pos + j]?)
      ∧ (Cursor.run_fetchone (fun i => rows[i]?) c k).2.pos =
        (if c.pos ≤ rows.length then min (c.pos + k) rows.length else c.pos) := by
  intro k
  induction k with
  | zero =>
      intro c _
      constructor
      · rfl
      · show c.pos = _
        by_cases h : c.pos ≤ rows.length
        · simp [h, Nat.min_eq_left h]
        · simp [h]
  | succ k ih =>
      intro c hres
      by_cases hlt : c.pos < rows.length
      · have hload : rows[c.pos]? = some rows[c.pos] :=
          List.getElem?_eq_getElem hlt
        have hstep :
            Cursor.run_fetchone (fun i => rows[i]?) c (k + 1) =
              (some rows[c.pos] ::
                (Cursor.run_fetchone (fun i => rows[i]?)
                  { c with pos := c.pos + 1 } k).1,
               (Cursor.run_fetchone (fun i => rows[i]?)
                  { c with pos := c.pos + 1 } k).2) := by
          simp [Cursor.run_fetchone, Cursor.fetchone, BaseCursor.check_result,
            hres, hst, hload]
        have ih1 := ih { c with pos := c.pos + 1 } (by simpa using hres)
        constructor
        · rw [hstep]
          simp only [ih1.1]
          rw [List.range_succ_eq_map]
          simp only [List.map_cons, List.map_map]
          congr 1
          · simp [hload]
          · apply List.map_congr_left
            intro j _
            simp only [Function.comp]
            congr 1
            omega
        · rw [hstep]
          simp only [ih1.2]
          have h1 : c.pos + 1 ≤ rows.length := hlt
          have h0 : c.pos ≤ rows.length := Nat.le_of_lt hlt
          simp only [h1, if_pos, h0]
          congr 1
          omega
      · have hlen : rows.length ≤ c.pos := Nat.le_of_not_lt hlt
        rw [run_fetchone_past_end rows res hst (k + 1) c hres hlen]
        constructor
        · rw [map_range_replicate_none _ (k + 1)
            (fun j _ => by simp only [List.getElem?_eq_none_iff]; omega)]
        · by_cases h : c.pos ≤ rows.length
          · have heq : c.pos = rows.length := Nat.le_antisymm h hlen
            simp [h, heq]
          · simp [h]

theorem fetchmany_loop_pos (rows : List Row) :
    ∀ (sz p : Nat),
      (Cursor.fetchmany_loop (fun i => rows[i]?) p sz).2 =
        (if p ≤ rows.length then min (p + sz) rows.length else p) := by
  intro sz
  induction sz with
  | zero =>
      intro p
      by_cases h : p ≤ rows.length
      · simp [Cursor.fetchmany_loop, h, Nat.min_eq_left h]
      · simp [Cursor.fetchmany_loop, h]
  | succ sz ih =>
      intro p
      by_cases hlt : p < rows.length
      · have hload : rows[p]? = some rows[p] := List.getElem?_eq_getElem hlt
        have h1 : p + 1 ≤ rows.length := hlt
        have h0 : p ≤ rows.length := Nat.le_of_lt hlt
        simp only [Cursor.fetchmany_loop, hload, ih (p + 1), h1, if_pos, h0]
        congr 1
        omega
      · have hlen : rows.length ≤ p := Nat.le_of_not_lt hlt
        have hload : rows[p]? = none := by
          simp [List.getElem?_eq_none_iff, hlen]
        simp only [Cursor.fetchmany_loop, hload]
        by_cases h : p ≤ rows.length
        · have heq : p = rows.length := Nat.le_antisymm h hlen
          simp [h, heq]
        · simp [h]

theorem iter_loop_pos (rows : List Row) :
    ∀ (k p : Nat),
      (Cursor.iter_loop (fun i => rows[i]?) p k).2 =
        (if p ≤ rows.length then min (p + k) rows.length else p) := by
  intro k
  induction k with
  | zero =>
      intro p
      by_cases h : p ≤ rows.length
      · simp [Cursor.iter_loop, h, Nat.min_eq_left h]
      · simp [Cursor.iter_loop, h]
  | succ k ih =>
      intro p
      by_cases hlt : p < rows.length
      · have hload : rows[p]? = some rows[p] := List.getElem?_eq_getElem hlt
        have h1 : p + 1 ≤ rows.length := hlt
        have h0 : p ≤ rows.length := Nat.le_of_lt hlt
        simp only [Cursor.iter_loop, hload, ih (p + 1), h1, if_pos, h0]
        congr 1
        omega
      · have hlen : rows.length ≤ p := Nat.le_of_not_lt hlt
        have hload : rows[p]? = none := by
          simp [List.getElem?_eq_none_iff, hlen]
        simp only [Cursor.iter_loop, hload]
        by_cases h : p ≤ rows.length
        · have heq : p = rows.length := Nat.le_antisymm h hlen
          simp [h, heq]
        · simp [h]

/-- C9.  For a cursor whose current result has status `TuplesOk` with
`load_row` yielding row `i` for `i < N` and nothing for `i >= N`
(`load_row = fun i => rows[i]?`, `N = rows.length`): `k` repeated `fetchone`
calls return the rows in server order followed by `none` past the end, the
row position after `k` calls is `min k N` (so it increases exactly by one per
returned row and stays within `[0, N]`); `fetchmany` moves the position to
`min size N ≤ N` (size 0 falling back to `arraysize`); and `k` iterations of
the cursor's iteration loop keep any position `p ≤ N` within the bound. -/
theorem fetch_row_position (rows : List Row) (res : PGresult)
    (c : CursorState) (k sz p kiter : Nat)
    (hres : c.pgresult = some res) (hst : res.status = .TUPLES_OK)
    (hpos : c.pos = 0) :
    (Cursor.run_fetchone (fun i => rows[i]?) c k).1 =
        (List.range k).map (fun j => rows[j]?)
    ∧ (Cursor.run_fetchone (fun i => rows[i]?) c k).2.pos = min k rows.length
    ∧ (∃ out c2, Cursor.fetchmany (fun i => rows[i]?) c sz = .ok (out, c2)
        ∧ c2.pos = min (if sz = 0 then c.arraysize else sz) rows.length
        ∧ c2.pos ≤ rows.length)
    ∧ (p ≤ rows.length →
        (Cursor.iter_loop (fun i => rows[i]?) p kiter).2 =
            min (p + kiter) rows.length
        ∧ (Cursor.iter_loop (fun i => rows[i]?) p kiter).2 ≤ rows.length) := by
  have hrun := run_fetchone_spec rows res hst k c hres
  refine ⟨?_, ?_, ?_, ?_⟩
  · rw [hrun.1]
    simp [hpos]
  · rw [hrun.2]
    simp [hpos]
  · refine ⟨(Cursor.fetchmany_loop (fun i => rows[i]?) c.pos
        (if sz = 0 then c.arraysize else sz)).1,
      { c with pos := (Cursor.fetchmany_loop (fun i => rows[i]?) c.pos
        (if sz = 0 then c.arraysize else sz)).2 }, ?_, ?_, ?_⟩
    · simp only [Cursor.fetchmany, BaseCursor.check_result, hres, hst, if_pos]
    · simp [fetchmany_loop_pos rows, hpos]
    · simp [fetchmany_loop_pos rows, hpos]
  · intro hple
    constructor
    · rw [iter_loop_pos rows kiter p]
      simp [hple]
    · rw [iter_loop_pos rows kiter p]
      simp only [hple, if_pos]
      exact Nat.min_le_right _ _

/-- A two-row result set, for the fetch witness. -/
def two_rows : List Row := [[some [104]], [some [119]]]

/-- A `TUPLES_OK` result with two tuples, for the fetch witness. -/
def tuples_result : PGresult :=
  { status := .TUPLES_OK, command_tuples := some 2, binary_tuples := .TEXT }

/-- A fresh cursor positioned on `tuples_result`. -/
def fetch_test_cursor : CursorState :=
  { CursorState.fresh with pgresult := some tuples_result }

/-- Witness for `fetch_row_position` at a two-row result. -/
theorem fetch_row_position_witness :
    (Cursor.run_fetchone (fun i => two_rows[i]?) fetch_test_cursor 3).1 =
        (List.range 3).map (fun j => two_rows[j]?)
    ∧ (Cursor.run_fetchone (fun i => two_rows[i]?) fetch_test_cursor 3).2.pos =
        min 3 two_rows.length
    ∧ (∃ out c2, Cursor.fetchmany (fun i => two_rows[i]?) fetch_test_cursor 1 =
          .ok (out, c2)
        ∧ c2.pos = min (if 1 = 0 then fetch_test_cursor.arraysize else 1)
            two_rows.length
        ∧ c2.pos ≤ two_rows.length)
    ∧ (0 ≤ two_rows.length →
        (Cursor.iter_loop (fun i => two_rows[i]?) 0 5).2 =
            min (0 + 5) two_rows.length
        ∧ (Cursor.iter_loop (fun i => two_rows[i]?) 0 5).2 ≤ two_rows.length) :=
  fetch_row_position two_rows tuples_result fetch_test_cursor 3 1 0 5
    rfl rfl rfl

/-! ## Array codec (`types/array.py`) -/

/-- A node of the adapted nested structure: a scalar value, `None`, or a
nested Python list. -/
inductive Item (α : Type) where
  | scalar (x : α)
  | null
  | list (xs : List (Item α))

/-- `builtins["text"].oid`. -/
def TEXT_OID : Nat := 25

/-- `builtins["text"].array_oid`. -/
def TEXT_ARRAY_OID : Nat := 1009

/-- Modelled from the spec: the builtins OID table (`types/oids.py` is not
among the embedded sources); it maps a base type OID to its array OID where
one is registered, `none` otherwise.  Only the `text` entry matters for the
claims below. -/
def builtins_array_oid (base : Nat) : Option Nat :=
  if base = 25 then some 1009 else none

/-- `BaseListAdapter._array_oid`: the array OID for a base OID, falling back
on `text[]`. -/
def array_oid (base_oid : Nat) : Nat :=
  let oid : Nat :=
    if base_oid ≠ 0 then
      match builtins_array_oid base_oid with
      | some a => a
      | none => 0
    else 0
  if oid = 0 then TEXT_ARRAY_OID else oid

/-- The byte class of `_re_needs_quote`'s second alternative
`["{},\\\s]` (double quote, braces, comma, backslash and whitespace). -/
def needs_quote_class (c : Nat) : Bool :=
  c = 34 || c = 123 || c = 125 || c = 44 || c = 92 ||
  c = 32 || c = 9 || c = 10 || c = 13 || c = 11 || c = 12

/-- ASCII lowercase, for the case-insensitive `null` match. -/
def ascii_lower (c : Nat) : Nat :=
  if 65 ≤ c && c ≤ 90 then c + 32 else c

/-- Case-insensitive equality with the word `null`. -/
def is_null_word (bs : Bytes) : Bool :=
  bs.map ascii_lower = [110, 117, 108, 108]

/-- `_re_needs_quote.search(ad) is not None`: matches the empty string, any
string containing a byte of the escape class, or (case-insensitively) the
word `null`.  (The regex also lets `^null$` match `null` followed by a final
newline, but a newline is whitespace and is caught by the class alternative,
so this Boolean is extensionally the regex.) -/
def needs_quote (bs : Bytes) : Bool :=
  bs.isEmpty || bs.any needs_quote_class || is_null_word bs

/-- The byte class of `_re_escape = re.compile(br'(["\\])')`. -/
def escape_class (c : Nat) : Bool := c = 34 || c = 92

/-- `_re_escape.sub(br"\\\1", ad)`: backslash-escape quotes and backslashes. -/
def escape_quoted (bs : Bytes) : Bytes :=
  re_class_sub escape_class (fun c => [92, c]) bs

/-- `b'"' + escaped + b'"'`. -/
def quote_field (bs : Bytes) : Bytes := [34] ++ escape_quoted bs ++ [34]

/-- The bytes `TextListAdapter.adapt` emits for one dumped scalar: quoted and
escaped when the dump matches `_re_needs_quote`, verbatim otherwise. -/
def written_field (bs : Bytes) : Bytes :=
  if needs_quote bs then quote_field bs else bs

/-- The bytes `NULL`. -/
def NULL_BYTES : Bytes := [78, 85, 76, 76]

mutual
/-- Tokens `TextListAdapter.adapt` appends for one item: recursion for nested
lists, `NULL` for `None`, the (possibly quoted) dumped bytes for a scalar.
The element-OID unification state is threaded (`oid = 0` while no element
fixed the OID); a scalar dumping to a different OID than the first one raises
`DataError`.  (The transformer's `adapt` returns a `(bytes, oid)` pair for a
registered codec, so the source's `isinstance(ad, tuple)` and `ad is not
None` tests are always true here.)  A nested list emits `{}` when empty,
otherwise `{`, the elements with their separators, and the trailing
separator replaced by `}` (`tokens[-1] = b"}"`, here `dropLast`). -/
def adapt_item {α : Type} (dump : α → Bytes × Nat) :
    Item α → Nat → Except String (List Bytes × Nat)
  | .null, oid => .ok ([NULL_BYTES], oid)
  | .scalar x, oid =>
      let ad := dump x
      if oid = 0 then .ok ([written_field ad.1], ad.2)
      else if oid ≠ ad.2 then
        .error "array contains different types"
      else .ok ([written_field ad.1], oid)
  | .list xs, oid =>
      match xs with
      | [] => .ok ([[123, 125]], oid)
      | _ :: _ =>
          match adapt_elems dump xs oid with
          | .error e => .error e
          | .ok (ts, oid1) => .ok ([123] :: (ts.dropLast ++ [[125]]), oid1)

/-- The loop over the elements of one list: each item's tokens followed by a
`,` separator token. -/
def adapt_elems {α : Type} (dump : α → Bytes × Nat) :
    List (Item α) → Nat → Except String (List Bytes × Nat)
  | [], oid => .ok ([], oid)
  | it :: rest, oid =>
      match adapt_item dump it oid with
      | .error e => .error e
      | .ok (ts, oid1) =>
          match adapt_elems dump rest oid1 with
          | .error e => .error e
          | .ok (ts2, oid2) => .ok (ts ++ [[44]] ++ ts2, oid2)
end

/-- The source's `adapt_list` closure applied to one (sub)list; its body is
that of the `.list` branch of `adapt_item`. -/
def adapt_list {α : Type} (dump : α → Bytes × Nat)
    (xs : List (Item α)) (oid : Nat) : Except String (List Bytes × Nat) :=
  match xs with
  | [] => .ok ([[123, 125]], oid)
  | _ :: _ =>
      match adapt_elems dump xs oid with
      | .error e => .error e
      | .ok (ts, oid1) => .ok ([123] :: (ts.dropLast ++ [[125]]), oid1)

/-- `TextListAdapter.adapt`: run the recursion with no element OID fixed,
join the tokens, and return the array OID of the unified element OID. -/
def TextListAdapter.adapt {α : Type} (dump : α → Bytes × Nat)
    (obj : List (Item α)) : Except String (Bytes × Nat) :=
  match adapt_list dump obj 0 with
  | .error e => .error e
  | .ok (ts, oid) => .ok (ts.flatten, array_oid oid)

/-- A token of `ArrayCasterText._re_parse`: an open or closed bracket, or a
field (quoted or unquoted), the optional trailing comma consumed. -/
inductive Tok where
  | lbr
  | rbr
  | field (bs : Bytes)
deriving DecidableEq, Repr

/-- The byte class a quoted or unquoted field token cannot contain unescaped:
`"`, `{`, `}`, `,`, `\`. -/
def tok_delim (c : Nat) : Bool :=
  c = 34 || c = 123 || c = 125 || c = 44 || c = 92

/-- The body scan of the quoted alternative `" (?: [^"\\] | \\. )* "`, after
the opening quote: returns the body and the remainder after the closing
quote.  A backslash must be followed by a byte other than newline (`.` does
not match `\n`); otherwise no alternative can consume the backslash and, as
no closing quote can be reached past it, the whole quoted match fails. -/
def scan_quoted : Bytes → Option (Bytes × Bytes)
  | [] => none
  | c :: rest =>
      if c = 34 then some ([], rest)
      else if c = 92 then
        match rest with
        | [] => none
        | d :: rest2 =>
            if d = 10 then none
            else (scan_quoted rest2).map fun br => (92 :: d :: br.1, br.2)
      else (scan_quoted rest).map fun br => (c :: br.1, br.2)

/-- The `,?` at the end of `_re_parse`: consume one optional comma. -/
def eat_comma : Bytes → Bytes
  | [] => []
  | c :: r => if c = 44 then r else c :: r

/-- One attempted match of `_re_parse` at the current position: a bracket, a
quoted field, or a longest nonempty run of non-delimiter bytes; `none` when
no alternative matches here (the comma or backslash byte, or an unclosed
quote). -/
def match_at : Bytes → Option (Tok × Bytes)
  | [] => none
  | c :: rest =>
      if c = 123 then some (.lbr, eat_comma rest)
      else if c = 125 then some (.rbr, eat_comma rest)
      else if c = 34 then
        match scan_quoted rest with
        | some br => some (.field ([34] ++ br.1 ++ [34]), eat_comma br.2)
        | none => none
      else if c = 44 || c = 92 then none
      else
        some (.field ((c :: rest).takeWhile fun b => !tok_delim b),
              eat_comma ((c :: rest).dropWhile fun b => !tok_delim b))

/-- `_re_parse.finditer`: scan the bytes left to right, emitting each match
and skipping bytes where no token starts.  The fuel argument (instantiated
with the input length, which bounds the number of steps since every step
consumes at least one byte) makes the scan structural. -/
def tokenize_fuel : Nat → Bytes → List Tok
  | 0, _ => []
  | _ + 1, [] => []
  | fuel + 1, b :: r =>
      match match_at (b :: r) with
      | some tr => tr.1 :: tokenize_fuel fuel tr.2
      | none => tokenize_fuel fuel r

/-- The token stream of a byte string. -/
def tokenize (bs : Bytes) : List Tok := tokenize_fuel bs.length bs

/-- `_re_unescape.sub(br"\1", t)`: drop the backslash of each `\x` pair, left
to right (`.` does not match a newline, so a backslash before a newline stays). -/
def unescape : Bytes → Bytes
  | [] => []
  | c :: rest =>
      if c = 92 then
        match rest with
        | [] => [c]
        | d :: rest2 =>
            -- a backslash before a newline matches nothing; the scan resumes
            -- at the newline, which cannot start a match either
            if d = 10 then c :: d :: unescape rest2 else d :: unescape rest2
      else c :: unescape rest

/-- The value decoded from one field token: `None` for the bytes `NULL`,
otherwise unquote/unescape when the token starts with `"` and cast. -/
def field_value {α : Type} (castf : Bytes → α) (t : Bytes) : Item α :=
  if t = NULL_BYTES then .null
  else if t.head? = some 34 then .scalar (castf (unescape ((t.drop 1).dropLast)))
  else .scalar (castf t)

/-- The `rv` reference of `ArrayCasterText.cast`: either it aliases the
bottom of the stack (set at the first `{`, before any `}` was seen), or it
holds the list popped by the most recent `}` (complete at pop time). -/
inductive Rv (α : Type) where
  | root
  | completed (xs : List (Item α))

/-- The value `rv` denotes when the input ends with brackets still open: the
bottom-of-stack list with the (partial) nested lists pushed above it linked
in, reflecting that the source appends each fresh list to its parent at push
time. -/
def rebuild {α : Type} : List (Item α) → List (List (Item α)) → List (Item α)
  | acc, [] => acc
  | acc, parent :: rest => rebuild (parent ++ [Item.list acc]) rest

/-- The token loop of `ArrayCasterText.cast`.  The stack holds the open
lists, innermost first; `{` pushes a fresh list (fixing `rv` to the root on
the first push), `}` pops it, links it into its parent and records it in
`rv`, and a field appends its decoded value to the innermost list.  At the
end of the tokens the source asserts `rv` is set and returns it. -/
def cast_run {α : Type} (castf : Bytes → α) :
    List Tok → List (List (Item α)) → Option (Rv α) →
    Except String (List (Item α))
  | [], stack, rv =>
      match stack, rv with
      | [], some (.completed r) => .ok r
      | [], some .root => .ok []
      | [], none => .error "malformed array: no content"
      | top :: rest, some .root => .ok (rebuild top rest)
      | _ :: _, some (.completed r) => .ok r
      | _ :: _, none => .error "malformed array: no content"
  | .lbr :: ts, stack, rv =>
      cast_run castf ts ([] :: stack)
        (match rv with
         | none => some .root
         | some r => some r)
  | .rbr :: ts, stack, _rv =>
      match stack with
      | [] => .error "malformed array, unexpected closing bracket"
      | top :: rest =>
          cast_run castf ts
            (match rest with
             | [] => []
             | parent :: rr => (parent ++ [Item.list top]) :: rr)
            (some (.completed top))
  | .field t :: ts, stack, _rv =>
      match stack with
      | [] => .error "malformed array, unexpected field"
      | top :: rest =>
          cast_run castf ts ((top ++ [field_value castf t]) :: rest) _rv

/-- `ArrayCasterText.cast`: tokenize and run the loop on an empty stack. -/
def ArrayCasterText.cast {α : Type} (castf : Bytes → α) (data : Bytes) :
    Except String (List (Item α)) :=
  cast_run castf (tokenize data) [] none

mutual
/-- The scalar values of an item, in order. -/
def Item.scalars {α : Type} : Item α → List α
  | .scalar x => [x]
  | .null => []
  | .list xs => scalars_list xs

/-- The scalar values of a forest, in order. -/
def scalars_list {α : Type} : List (Item α) → List α
  | [] => []
  | x :: xs => Item.scalars x ++ scalars_list xs
end

/-! ### Round-trip infrastructure for the text array codec -/

mutual
/-- The bytes the text writer renders for one item (the flattened tokens). -/
def render_item {α : Type} (dump : α → Bytes × Nat) : Item α → Bytes
  | .scalar x => written_field (dump x).1
  | .null => NULL_BYTES
  | .list xs =>
      match xs with
      | [] => [123, 125]
      | _ :: _ => [123] ++ render_elems dump xs ++ [125]

/-- The bytes rendered for the elements of a nonempty list, comma-separated. -/
def render_elems {α : Type} (dump : α → Bytes × Nat) : List (Item α) → Bytes
  | [] => []
  | [it] => render_item dump it
  | it :: next :: rest =>
      render_item dump it ++ [44] ++ render_elems dump (next :: rest)
end

mutual
/-- The token list the writer produces for one item (before the trailing
separator is appended). -/
def ptoks_item {α : Type} (dump : α → Bytes × Nat) : Item α → List Bytes
  | .scalar x => [written_field (dump x).1]
  | .null => [NULL_BYTES]
  | .list xs =>
      match xs with
      | [] => [[123, 125]]
      | _ :: _ => [123] :: ((ptoks_elems dump xs).dropLast ++ [[125]])

/-- The token list for a run of elements, each followed by its separator. -/
def ptoks_elems {α : Type} (dump : α → Bytes × Nat) :
    List (Item α) → List Bytes
  | [] => []
  | it :: rest => ptoks_item dump it ++ [[44]] ++ ptoks_elems dump rest
end

mutual
/-- The reader tokens corresponding to one written item. -/
def wtoks_item {α : Type} (dump : α → Bytes × Nat) : Item α → List Tok
  | .scalar x => [.field (written_field (dump x).1)]
  | .null => [.field NULL_BYTES]
  | .list xs =>
      match xs with
      | [] => [.lbr, .rbr]
      | _ :: _ => .lbr :: (wtoks_elems dump xs ++ [.rbr])

/-- The reader tokens for a run of written elements. -/
def wtoks_elems {α : Type} (dump : α → Bytes × Nat) :
    List (Item α) → List Tok
  | [] => []
  | it :: rest => wtoks_item dump it ++ wtoks_elems dump rest
end

/-- The bytes rendered for a whole (sub)list. -/
def render_list {α : Type} (dump : α → Bytes × Nat) (xs : List (Item α)) :
    Bytes :=
  match xs with
  | [] => [123, 125]
  | _ :: _ => [123] ++ render_elems dump xs ++ [125]

/-- The reader tokens for a whole written (sub)list. -/
def wtoks_list {α : Type} (dump : α → Bytes × Nat) (xs : List (Item α)) :
    List Tok :=
  match xs with
  | [] => [.lbr, .rbr]
  | _ :: _ => .lbr :: (wtoks_elems dump xs ++ [.rbr])

theorem dropLast_append_ne {β : Type} (A B : List β) (h : B ≠ []) :
    (A ++ B).dropLast = A ++ B.dropLast := by
  induction A with
  | nil => simp
  | cons a A ih =>
      have hne : A ++ B ≠ [] := by
        intro hc
        rcases List.append_eq_nil.mp hc with ⟨_, h2⟩
        exact h h2
      simp only [List.cons_append]
      rw [List.dropLast_cons_of_ne_nil hne, ih]

mutual
theorem adapt_item_ok {α : Type} (dump : α → Bytes × Nat) (o : Nat)
    (it : Item α) (hoid : ∀ x ∈ Item.scalars it, (dump x).2 = o) :
    ∀ oid, (oid = 0 ∨ oid = o) →
      ∃ oid', adapt_item dump it oid = .ok (ptoks_item dump it, oid')
        ∧ (oid' = 0 ∨ oid' = o) := by
  intro oid hO
  cases it with
  | null => exact ⟨oid, rfl, hO⟩
  | scalar x =>
      have hx : (dump x).2 = o := hoid x (by simp [Item.scalars])
      by_cases h0 : oid = 0
      · refine ⟨(dump x).2, ?_, Or.inr hx⟩
        simp [adapt_item, ptoks_item, h0]
      · have ho : oid = o := hO.resolve_left h0
        refine ⟨oid, ?_, Or.inr ho⟩
        have hne : ¬(oid ≠ (dump x).2) := by
          rw [hx, ho]
          simp
        simp [adapt_item, ptoks_item, h0, hne]
  | list xs =>
      have hsub : ∀ x ∈ scalars_list xs, (dump x).2 = o := by
        intro x hx
        exact hoid x (by simpa [Item.scalars] using hx)
      cases xs with
      | nil => exact ⟨oid, rfl, hO⟩
      | cons y ys =>
          obtain ⟨oid', heq, hO'⟩ :=
            adapt_elems_ok dump o (y :: ys) hsub oid hO
          refine ⟨oid', ?_, hO'⟩
          simp [adapt_item, ptoks_item, heq]

theorem adapt_elems_ok {α : Type} (dump : α → Bytes × Nat) (o : Nat)
    (xs : List (Item α)) (hoid : ∀ x ∈ scalars_list xs, (dump x).2 = o) :
    ∀ oid, (oid = 0 ∨ oid = o) →
      ∃ oid', adapt_elems dump xs oid = .ok (ptoks_elems dump xs, oid')
        ∧ (oid' = 0 ∨ oid' = o) := by
  intro oid hO
  cases xs with
  | nil => exact ⟨oid, rfl, hO⟩
  | cons it rest =>
      have h1 : ∀ x ∈ Item.scalars it, (dump x).2 = o := by
        intro x hx
        exact hoid x (by simp [scalars_list, hx])
      have h2 : ∀ x ∈ scalars_list rest, (dump x).2 = o := by
        intro x hx
        exact hoid x (by simp [scalars_list, hx])
      obtain ⟨o1, he1, hO1⟩ := adapt_item_ok dump o it h1 oid hO
      obtain ⟨o2, he2, hO2⟩ := adapt_elems_ok dump o rest h2 o1 hO1
      refine ⟨o2, ?_, hO2⟩
      simp [adapt_elems, he1, he2, ptoks_elems]
end

theorem ptoks_item_ne_nil {α : Type} (dump : α → Bytes × Nat) (it : Item α) :
    ptoks_item dump it ≠ [] := by
  cases it with
  | null => simp [ptoks_item]
  | scalar x => simp [ptoks_item]
  | list xs => cases xs <;> simp [ptoks_item]

mutual
theorem ptoks_item_flatten {α : Type} (dump : α → Bytes × Nat) (it : Item α) :
    (ptoks_item dump it).flatten = render_item dump it := by
  cases it with
  | null => simp [ptoks_item, render_item]
  | scalar x => simp [ptoks_item, render_item]
  | list xs =>
      cases xs with
      | nil => simp [ptoks_item, render_item]
      | cons y ys =>
          simp only [ptoks_item, render_item, List.flatten_cons,
            List.flatten_append]
          rw [ptoks_elems_flatten dump (y :: ys) (by simp)]
          simp

theorem ptoks_elems_flatten {α : Type} (dump : α → Bytes × Nat)
    (xs : List (Item α)) (hx : xs ≠ []) :
    ((ptoks_elems dump xs).dropLast).flatten = render_elems dump xs := by
  cases xs with
  | nil => exact absurd rfl hx
  | cons it rest =>
      cases rest with
      | nil =>
          have h1 : ptoks_elems dump [it] = ptoks_item dump it ++ [[44]] := by
            simp [ptoks_elems]
          rw [h1, List.dropLast_concat]
          rw [ptoks_item_flatten dump it]
          simp [render_elems]
      | cons y yr =>
          have hB : ptoks_elems dump (y :: yr) ≠ [] := by
            have hni := ptoks_item_ne_nil dump y
            cases h : ptoks_item dump y with
            | nil => exact absurd h hni
            | cons a b => simp [ptoks_elems, h]
          have hstep : ptoks_elems dump (it :: y :: yr) =
              (ptoks_item dump it ++ [[44]]) ++ ptoks_elems dump (y :: yr) := by
            simp [ptoks_elems]
          rw [hstep, dropLast_append_ne _ _ hB]
          simp only [List.flatten_append]
          rw [ptoks_elems_flatten dump (y :: yr) (by simp)]
          rw [show render_elems dump (it :: y :: yr)
                = render_item dump it ++ [44] ++ render_elems dump (y :: yr)
              from rfl]
          rw [ptoks_item_flatten dump it]
          simp
end

/-- Under a uniform element OID the text writer succeeds and produces exactly
the rendered bytes (with some unified OID). -/
theorem adapt_renders {α : Type} (dump : α → Bytes × Nat) (o : Nat)
    (xs : List (Item α)) (hoid : ∀ x ∈ scalars_list xs, (dump x).2 = o) :
    ∃ oidr, TextListAdapter.adapt dump xs = .ok (render_list dump xs, oidr) := by
  cases xs with
  | nil => exact ⟨TEXT_ARRAY_OID, rfl⟩
  | cons y ys =>
      obtain ⟨oid', heq, _⟩ :=
        adapt_elems_ok dump o (y :: ys) hoid 0 (Or.inl rfl)
      refine ⟨array_oid oid', ?_⟩
      simp only [TextListAdapter.adapt, adapt_list, heq]
      have hfl : ((ptoks_elems dump (y :: ys)).dropLast).flatten =
          render_elems dump (y :: ys) :=
        ptoks_elems_flatten dump (y :: ys) (by simp)
      simp [render_list, hfl]

theorem eat_comma_length (r : Bytes) : (eat_comma r).length ≤ r.length := by
  cases r with
  | nil => simp [eat_comma]
  | cons c rest =>
      by_cases h : c = 44 <;> simp [eat_comma, h, Nat.le_succ]

theorem scan_quoted_length_fuel (n : Nat) :
    ∀ (bs : Bytes), bs.length ≤ n → ∀ br, scan_quoted bs = some br →
      br.2.length < bs.length := by
  induction n with
  | zero =>
      intro bs hlen br h
      have : bs = [] := List.length_eq_zero.mp (Nat.le_zero.mp hlen)
      subst this
      cases h
  | succ n ih =>
      intro bs hlen br h
      cases bs with
      | nil => cases h
      | cons c rest =>
          rw [scan_quoted.eq_def] at h
          simp only [] at h
          by_cases h34 : c = 34
          · simp only [if_pos h34] at h
            cases h
            simp
          by_cases h92 : c = 92
          · simp only [if_neg h34, if_pos h92] at h
            cases rest with
            | nil => cases h
            | cons d rest2 =>
                by_cases h10 : d = 10
                · simp [h10] at h
                · simp only [if_neg h10] at h
                  cases hs : scan_quoted rest2 with
                  | none => rw [hs] at h; cases h
                  | some br0 =>
                      rw [hs] at h
                      simp only [Option.map_some'] at h
                      cases h
                      have := ih rest2
                        (by simp only [List.length_cons] at hlen; omega)
                        br0 hs
                      simp only [List.length_cons]
                      omega
          · simp only [if_neg h34, if_neg h92] at h
            cases hs : scan_quoted rest with
            | none => rw [hs] at h; cases h
            | some br0 =>
                rw [hs] at h
                simp only [Option.map_some'] at h
                cases h
                have := ih rest
                  (by simp only [List.length_cons] at hlen; omega) br0 hs
                simp only [List.length_cons]
                omega

theorem scan_quoted_length (bs : Bytes) :
    ∀ br, scan_quoted bs = some br → br.2.length < bs.length :=
  scan_quoted_length_fuel bs.length bs (Nat.le_refl _)

theorem match_at_length (bs : Bytes) :
    ∀ tr, match_at bs = some tr → tr.2.length < bs.length := by
  intro tr h
  cases bs with
  | nil => cases h
  | cons c rest =>
      simp only [match_at] at h
      by_cases h123 : c = 123
      · simp only [if_pos h123] at h
        cases h
        have := eat_comma_length rest
        simp only [List.length_cons]
        omega
      by_cases h125 : c = 125
      · simp only [if_neg h123, if_pos h125] at h
        cases h
        have := eat_comma_length rest
        simp only [List.length_cons]
        omega
      by_cases h34 : c = 34
      · simp only [if_neg h123, if_neg h125, if_pos h34] at h
        cases hscan : scan_quoted rest with
        | none => rw [hscan] at h; cases h
        | some br =>
            rw [hscan] at h
            cases h
            have h1 := scan_quoted_length rest br hscan
            have h2 := eat_comma_length br.2
            simp only [List.length_cons]
            omega
      by_cases h4492 : c = 44 || c = 92
      · simp only [if_neg h123, if_neg h125, if_neg h34, if_pos h4492] at h
        cases h
      · simp only [if_neg h123, if_neg h125, if_neg h34, if_neg h4492] at h
        cases h
        have hdw : ((c :: rest).dropWhile fun b => !tok_delim b).length
            ≤ rest.length := by
          have hc : tok_delim c = false := by
            simp [tok_delim, h34, h123, h125]
            constructor
            · intro hc44; rw [hc44] at h4492; simp at h4492
            · intro hc92; rw [hc92] at h4492; simp at h4492
          have : (c :: rest).dropWhile (fun b => !tok_delim b)
              = rest.dropWhile (fun b => !tok_delim b) := by
            simp [List.dropWhile_cons, hc]
          rw [this]
          exact (List.dropWhile_sublist _).length_le
        have := eat_comma_length ((c :: rest).dropWhile fun b => !tok_delim b)
        simp only [List.length_cons]
        omega

theorem tokenize_fuel_congr :
    ∀ (f g : Nat) (bs : Bytes), bs.length ≤ f → bs.length ≤ g →
      tokenize_fuel f bs = tokenize_fuel g bs := by
  intro f
  induction f with
  | zero =>
      intro g bs hf _
      have : bs = [] := List.length_eq_zero.mp (Nat.le_zero.mp hf)
      subst this
      cases g <;> rfl
  | succ f ih =>
      intro g bs hf hg
      cases bs with
      | nil => cases g <;> rfl
      | cons b r =>
          have hg1 : 1 ≤ g := by
            simp only [List.length_cons] at hg
            omega
          obtain ⟨g', rfl⟩ : ∃ g', g = g' + 1 :=
            ⟨g - 1, by omega⟩
          simp only [tokenize_fuel]
          cases hm : match_at (b :: r) with
          | none =>
              simp only []
              apply ih
              · simp only [List.length_cons] at hf; omega
              · simp only [List.length_cons] at hg; omega
          | some tr =>
              simp only []
              have hlt := match_at_length (b :: r) tr hm
              rw [ih g' tr.2 (by simp only [List.length_cons] at hf hlt ⊢; omega)
                (by simp only [List.length_cons] at hg hlt ⊢; omega)]

theorem tokenize_step (bs : Bytes) (tr : Tok × Bytes)
    (h : match_at bs = some tr) :
    tokenize bs = tr.1 :: tokenize tr.2 := by
  cases bs with
  | nil => cases h
  | cons b r =>
      show tokenize_fuel (b :: r).length (b :: r) = _
      simp only [List.length_cons, tokenize_fuel, h]
      have hlt := match_at_length (b :: r) tr h
      rw [tokenize_fuel_congr r.length tr.2.length tr.2
        (by simp only [List.length_cons] at hlt; omega) (Nat.le_refl _)]
      rfl

theorem eat_comma_of_head_ne (l : Bytes) (h : ∀ c, l.head? = some c → c ≠ 44) :
    eat_comma l = l := by
  cases l with
  | nil => rfl
  | cons c r => simp [eat_comma, h c rfl]

theorem takeWhile_append_of_all {p : Nat → Bool} (bs rest : Bytes)
    (h : ∀ c ∈ bs, p c = true)
    (h2 : ∀ c, rest.head? = some c → p c = false) :
    (bs ++ rest).takeWhile p = bs ∧ (bs ++ rest).dropWhile p = rest := by
  induction bs with
  | nil =>
      cases rest with
      | nil => simp
      | cons c r =>
          simp [List.takeWhile_cons, List.dropWhile_cons, h2 c rfl]
  | cons b bs ih =>
      have hb : p b = true := h b (by simp)
      have ihh := ih (fun c hc => h c (by simp [hc]))
      simp [List.takeWhile_cons, List.dropWhile_cons, hb, ihh.1, ihh.2]

theorem scan_quoted_escape (bs rest : Bytes) :
    scan_quoted (escape_quoted bs ++ (34 :: rest)) =
      some (escape_quoted bs, rest) := by
  induction bs with
  | nil =>
      simp only [escape_quoted, re_class_sub, List.nil_append]
      rw [scan_quoted.eq_def]
      simp
  | cons c r ih =>
      by_cases hc : escape_class c = true
      · have hc' : c = 34 ∨ c = 92 := by simpa [escape_class] using hc
        have h10 : ¬(c = 10) := by rcases hc' with h | h <;> simp [h]
        have hstep : escape_quoted (c :: r) = 92 :: c :: escape_quoted r := by
          simp [escape_quoted, re_class_sub, hc]
        rw [hstep]
        simp only [List.cons_append]
        rw [scan_quoted.eq_def]
        simp [h10, ih]
      · have hcc : ¬(c = 34) ∧ ¬(c = 92) := by
          constructor <;> intro h <;> simp [escape_class, h] at hc
        have hstep : escape_quoted (c :: r) = c :: escape_quoted r := by
          simp [escape_quoted, re_class_sub, hc]
        rw [hstep]
        simp only [List.cons_append]
        rw [scan_quoted.eq_def]
        simp [hcc.1, hcc.2, ih]

theorem tok_delim_sub_quote_class (c : Nat) (h : tok_delim c = true) :
    needs_quote_class c = true := by
  simp only [tok_delim, Bool.or_eq_true, decide_eq_true_eq] at h
  rcases h with ((((h | h) | h) | h) | h) <;> simp [needs_quote_class, h]

theorem not_needs_quote_spec (b : Bytes) (h : needs_quote b = false) :
    b ≠ [] ∧ ∀ c ∈ b, tok_delim c = false := by
  constructor
  · intro hb
    subst hb
    simp [needs_quote] at h
  · intro c hc
    by_contra hcd
    have hcd' : tok_delim c = true := by
      cases hh : tok_delim c
      · exact absurd hh hcd
      · rfl
    have := tok_delim_sub_quote_class c hcd'
    have hany : b.any needs_quote_class = true := by
      exact List.any_eq_true.mpr ⟨c, hc, this⟩
    simp [needs_quote, hany] at h

theorem match_at_quoted (b rest : Bytes) :
    match_at (quote_field b ++ rest) =
      some (.field (quote_field b), eat_comma rest) := by
  have hshape : quote_field b ++ rest =
      34 :: (escape_quoted b ++ (34 :: rest)) := by
    simp [quote_field]
  rw [hshape, match_at.eq_def]
  simp [scan_quoted_escape, quote_field]

theorem match_at_unquoted (b rest : Bytes) (hne : b ≠ [])
    (hsafe : ∀ c ∈ b, tok_delim c = false)
    (hrest : rest.head? = some 44 ∨ rest.head? = some 125) :
    match_at (b ++ rest) = some (.field b, eat_comma rest) := by
  cases b with
  | nil => exact absurd rfl hne
  | cons c br =>
      have hc : tok_delim c = false := hsafe c (by simp)
      have hc' : ¬(c = 34) ∧ ¬(c = 123) ∧ ¬(c = 125) ∧ ¬(c = 44) ∧ ¬(c = 92) := by
        simp only [tok_delim, Bool.or_eq_false_iff, decide_eq_false_iff_not] at hc
        exact ⟨hc.1.1.1.1, hc.1.1.1.2, hc.1.1.2, hc.1.2, hc.2⟩
      have htw := takeWhile_append_of_all (p := fun b => !tok_delim b)
        (c :: br) rest
        (by intro d hd; simp [hsafe d hd])
        (by intro d hd
            rcases hrest with h | h <;> rw [h] at hd <;> cases hd <;>
              simp [tok_delim])
      rw [match_at.eq_def]
      simp only [List.cons_append]
      simp only [if_neg hc'.2.1, if_neg hc'.2.2.1, if_neg hc'.1]
      have hor : ¬(c = 44 || c = 92) = true := by
        simp [hc'.2.2.2.1, hc'.2.2.2.2]
      simp only [hor, if_neg, if_false]
      simp only [List.cons_append] at htw
      rw [htw.1, htw.2]
      simp

theorem match_at_lbr (rest : Bytes) :
    match_at (123 :: rest) = some (.lbr, eat_comma rest) := by
  rw [match_at.eq_def]
  simp

theorem match_at_rbr (rest : Bytes) :
    match_at (125 :: rest) = some (.rbr, eat_comma rest) := by
  rw [match_at.eq_def]
  simp

theorem tokenize_written (b rest : Bytes)
    (hrest : rest.head? = some 44 ∨ rest.head? = some 125) :
    tokenize (written_field b ++ rest) =
      .field (written_field b) :: tokenize (eat_comma rest) := by
  by_cases hq : needs_quote b
  · have : written_field b = quote_field b := by simp [written_field, hq]
    rw [this]
    exact tokenize_step _ _ (match_at_quoted b rest)
  · have hqf : needs_quote b = false := by
      cases hh : needs_quote b
      · rfl
      · exact absurd hh hq
    have hspec := not_needs_quote_spec b hqf
    have : written_field b = b := by simp [written_field, hq]
    rw [this]
    exact tokenize_step _ _ (match_at_unquoted b rest hspec.1 hspec.2 hrest)

theorem tokenize_null_field (rest : Bytes)
    (hrest : rest.head? = some 44 ∨ rest.head? = some 125) :
    tokenize (NULL_BYTES ++ rest) =
      .field NULL_BYTES :: tokenize (eat_comma rest) := by
  refine tokenize_step _ _ (match_at_unquoted NULL_BYTES rest (by simp [NULL_BYTES])
    ?_ hrest)
  intro c hc
  simp only [NULL_BYTES, List.mem_cons, List.not_mem_nil, or_false] at hc
  rcases hc with rfl | rfl | rfl | rfl <;> decide

theorem written_field_head (b : Bytes) :
    ∀ c, (written_field b).head? = some c → ¬(c = 44) := by
  intro c hc
  by_cases hq : needs_quote b
  · simp [written_field, hq, quote_field] at hc
    omega
  · have hqf : needs_quote b = false := by
      cases hh : needs_quote b
      · rfl
      · exact absurd hh hq
    have hspec := not_needs_quote_spec b hqf
    rw [show written_field b = b by simp [written_field, hq]] at hc
    cases b with
    | nil => cases hc
    | cons d br =>
        simp only [List.head?_cons, Option.some_inj] at hc
        have hd := hspec.2 d (by simp)
        simp only [tok_delim, Bool.or_eq_false_iff,
          decide_eq_false_iff_not] at hd
        rw [← hc]
        exact hd.1.2

theorem render_item_ne_nil {α : Type} (dump : α → Bytes × Nat) (it : Item α) :
    render_item dump it ≠ [] := by
  cases it with
  | scalar x =>
      simp only [render_item, written_field]
      by_cases hq : needs_quote (dump x).1
      · simp [hq, quote_field]
      · have hqf : needs_quote (dump x).1 = false := by
          cases hh : needs_quote (dump x).1
          · rfl
          · exact absurd hh hq
        simp [hq, (not_needs_quote_spec _ hqf).1]
  | null => simp [render_item, NULL_BYTES]
  | list xs => cases xs <;> simp [render_item]

theorem render_item_head {α : Type} (dump : α → Bytes × Nat) (it : Item α) :
    ∀ c, (render_item dump it).head? = some c → ¬(c = 44) := by
  intro c hc
  cases it with
  | scalar x => exact written_field_head (dump x).1 c hc
  | null =>
      simp [render_item, NULL_BYTES] at hc
      omega
  | list xs =>
      cases xs <;> simp [render_item] at hc <;> omega

mutual
theorem tokenize_render_item {α : Type} (dump : α → Bytes × Nat)
    (it : Item α) (rest : Bytes)
    (hrest : rest.head? = some 44 ∨ rest.head? = some 125) :
    tokenize (render_item dump it ++ rest) =
      wtoks_item dump it ++ tokenize (eat_comma rest) := by
  cases it with
  | scalar x =>
      have h := tokenize_written (dump x).1 rest hrest
      simpa [render_item, wtoks_item] using h
  | null =>
      have h := tokenize_null_field rest hrest
      simpa [render_item, wtoks_item] using h
  | list xs =>
      cases xs with
      | nil =>
          have hshape :
              render_item dump (Item.list ([] : List (Item α))) ++ rest =
                123 :: 125 :: rest := by
            simp [render_item]
          rw [hshape]
          rw [tokenize_step _ _ (match_at_lbr (125 :: rest))]
          rw [show eat_comma (125 :: rest) = 125 :: rest by simp [eat_comma]]
          rw [tokenize_step _ _ (match_at_rbr rest)]
          simp [wtoks_item]
      | cons y ys =>
          have hshape :
              render_item dump (Item.list (y :: ys)) ++ rest =
                123 :: (render_elems dump (y :: ys) ++ (125 :: rest)) := by
            simp [render_item]
          rw [hshape]
          rw [tokenize_step _ _ (match_at_lbr _)]
          have hhead :
              eat_comma (render_elems dump (y :: ys) ++ (125 :: rest)) =
                render_elems dump (y :: ys) ++ (125 :: rest) := by
            apply eat_comma_of_head_ne
            intro c hc
            have hren : render_elems dump (y :: ys) =
                render_item dump y ++
                  (match ys with
                   | [] => ([] : Bytes)
                   | _ :: _ => 44 :: render_elems dump ys) := by
              cases ys <;> simp [render_elems]
            rw [hren, List.append_assoc] at hc
            rcases hne : render_item dump y with _ | ⟨d, dr⟩
            · exact absurd hne (render_item_ne_nil dump y)
            · rw [hne] at hc
              simp only [List.cons_append, List.head?_cons,
                Option.some_inj] at hc
              rw [← hc]
              exact render_item_head dump y d (by rw [hne]; rfl)
          rw [hhead]
          rw [tokenize_render_elems dump (y :: ys) (by simp) rest]
          simp [wtoks_item]

theorem tokenize_render_elems {α : Type} (dump : α → Bytes × Nat)
    (xs : List (Item α)) (hx : xs ≠ []) (rest : Bytes) :
    tokenize (render_elems dump xs ++ (125 :: rest)) =
      wtoks_elems dump xs ++ (.rbr :: tokenize (eat_comma rest)) := by
  cases xs with
  | nil => exact absurd rfl hx
  | cons it more =>
      cases more with
      | nil =>
          rw [show render_elems dump [it] = render_item dump it from rfl]
          rw [tokenize_render_item dump it (125 :: rest) (Or.inr rfl)]
          rw [show eat_comma (125 :: rest) = 125 :: rest by simp [eat_comma]]
          rw [tokenize_step _ _ (match_at_rbr rest)]
          simp [wtoks_elems]
      | cons y yr =>
          have hshape :
              render_elems dump (it :: y :: yr) ++ (125 :: rest) =
                render_item dump it ++
                  (44 :: (render_elems dump (y :: yr) ++ (125 :: rest))) := by
            show (render_item dump it ++ [44] ++ render_elems dump (y :: yr))
                ++ (125 :: rest) = _
            simp
          rw [hshape]
          rw [tokenize_render_item dump it
            (44 :: (render_elems dump (y :: yr) ++ (125 :: rest)))
            (Or.inl rfl)]
          rw [show eat_comma (44 :: (render_elems dump (y :: yr) ++
              (125 :: rest))) = render_elems dump (y :: yr) ++ (125 :: rest)
            by simp [eat_comma]]
          rw [tokenize_render_elems dump (y :: yr) (by simp) rest]
          simp [wtoks_elems]
end

theorem eat_comma_render_elems {α : Type} (dump : α → Bytes × Nat)
    (y : Item α) (ys : List (Item α)) (tail : Bytes) :
    eat_comma (render_elems dump (y :: ys) ++ tail) =
      render_elems dump (y :: ys) ++ tail := by
  apply eat_comma_of_head_ne
  intro c hc
  have hren : render_elems dump (y :: ys) =
      render_item dump y ++
        (match ys with
         | [] => ([] : Bytes)
         | _ :: _ => 44 :: render_elems dump ys) := by
    cases ys <;> simp [render_elems]
  rw [hren, List.append_assoc] at hc
  rcases hne : render_item dump y with _ | ⟨d, dr⟩
  · exact absurd hne (render_item_ne_nil dump y)
  · rw [hne] at hc
    simp only [List.cons_append, List.head?_cons, Option.some_inj] at hc
    rw [← hc]
    exact render_item_head dump y d (by rw [hne]; rfl)

/-- Tokenizing the writer's rendered bytes yields exactly the structural
token stream. -/
theorem tokenize_render_list {α : Type} (dump : α → Bytes × Nat)
    (xs : List (Item α)) :
    tokenize (render_list dump xs) = wtoks_list dump xs := by
  cases xs with
  | nil => rfl
  | cons y ys =>
      have hshape : render_list dump (y :: ys) =
          123 :: (render_elems dump (y :: ys) ++ (125 :: [])) := by
        simp [render_list]
      rw [hshape]
      rw [tokenize_step _ _ (match_at_lbr _)]
      rw [eat_comma_render_elems dump y ys (125 :: [])]
      rw [tokenize_render_elems dump (y :: ys) (by simp) []]
      simp [wtoks_list, eat_comma, tokenize, tokenize_fuel]

theorem unescape_escape (b : Bytes) : unescape (escape_quoted b) = b := by
  induction b with
  | nil => rfl
  | cons c r ih =>
      by_cases hc : escape_class c = true
      · have hc' : c = 34 ∨ c = 92 := by simpa [escape_class] using hc
        have h10 : ¬(c = 10) := by rcases hc' with h | h <;> simp [h]
        have hstep : escape_quoted (c :: r) = 92 :: c :: escape_quoted r := by
          simp [escape_quoted, re_class_sub, hc]
        rw [hstep]
        rw [unescape.eq_def]
        simp [h10, ih]
      · have hcc : ¬(c = 34) ∧ ¬(c = 92) := by
          constructor <;> intro h <;> simp [escape_class, h] at hc
        have hstep : escape_quoted (c :: r) = c :: escape_quoted r := by
          simp [escape_quoted, re_class_sub, hc]
        rw [hstep]
        rw [unescape.eq_def]
        simp [hcc.2, ih]

theorem quote_field_ne_null (b : Bytes) : quote_field b ≠ NULL_BYTES := by
  intro h
  have : (quote_field b).head? = (NULL_BYTES : Bytes).head? := by rw [h]
  simp [quote_field, NULL_BYTES] at this

theorem field_value_written {α : Type} (castf : Bytes → α) (b : Bytes) :
    field_value castf (written_field b) = .scalar (castf b) := by
  by_cases hq : needs_quote b
  · rw [show written_field b = quote_field b by simp [written_field, hq]]
    simp only [field_value, if_neg (quote_field_ne_null b)]
    have hh : (quote_field b).head? = some 34 := by simp [quote_field]
    rw [if_pos hh]
    have hdrop : ((quote_field b).drop 1).dropLast = escape_quoted b := by
      show ((34 :: (escape_quoted b ++ [34])).drop 1).dropLast = _
      simp
    rw [hdrop, unescape_escape]
  · have hqf : needs_quote b = false := by
      cases hh : needs_quote b
      · rfl
      · exact absurd hh hq
    have hbn : ¬(b = NULL_BYTES) := by
      intro h
      rw [h] at hqf
      exact absurd hqf (by decide)
    have hb34 : ¬(b.head? = some 34) := by
      intro h
      cases b with
      | nil => cases h
      | cons d br =>
          simp only [List.head?_cons, Option.some_inj] at h
          subst h
          have hnq : needs_quote (34 :: br) = true := by
            simp [needs_quote, needs_quote_class]
          rw [hnq] at hqf
          cases hqf
    rw [show written_field b = b by simp [written_field, hq]]
    simp only [field_value, if_neg hbn, if_neg hb34]

mutual
theorem cast_run_item {α : Type} (castf : Bytes → α) (dump : α → Bytes × Nat)
    (it : Item α) (hc : ∀ x ∈ Item.scalars it, castf (dump x).1 = x)
    (ts : List Tok) (top : List (Item α)) (stack : List (List (Item α)))
    (rv : Option (Rv α)) :
    ∃ rv', cast_run castf (wtoks_item dump it ++ ts) (top :: stack) rv =
      cast_run castf ts ((top ++ [it]) :: stack) rv' := by
  cases it with
  | scalar x =>
      refine ⟨rv, ?_⟩
      have hx : castf (dump x).1 = x := hc x (by simp [Item.scalars])
      simp only [wtoks_item, List.cons_append, List.nil_append, cast_run]
      rw [field_value_written, hx]
      rfl
  | null =>
      refine ⟨rv, ?_⟩
      simp only [wtoks_item, List.cons_append, List.nil_append, cast_run]
      rw [show field_value castf NULL_BYTES = (Item.null : Item α) from rfl]
      rfl
  | list xs =>
      cases xs with
      | nil =>
          refine ⟨some (.completed []), ?_⟩
          simp [wtoks_item, cast_run]
      | cons y ys =>
          have hsub : ∀ x ∈ scalars_list (y :: ys), castf (dump x).1 = x := by
            intro x hx
            exact hc x (by simpa [Item.scalars] using hx)
          have hshape : wtoks_item dump (Item.list (y :: ys)) ++ ts =
              .lbr :: (wtoks_elems dump (y :: ys) ++ (.rbr :: ts)) := by
            simp [wtoks_item]
          rw [hshape]
          simp only [cast_run]
          obtain ⟨rv2, h2⟩ := cast_run_elems castf dump (y :: ys) hsub
            (.rbr :: ts) [] (top :: stack)
            (match rv with
             | none => some Rv.root
             | some r => some r)
          rw [h2]
          refine ⟨some (.completed (y :: ys)), ?_⟩
          simp [cast_run]

theorem cast_run_elems {α : Type} (castf : Bytes → α) (dump : α → Bytes × Nat)
    (xs : List (Item α)) (hc : ∀ x ∈ scalars_list xs, castf (dump x).1 = x)
    (ts : List Tok) (top : List (Item α)) (stack : List (List (Item α)))
    (rv : Option (Rv α)) :
    ∃ rv', cast_run castf (wtoks_elems dump xs ++ ts) (top :: stack) rv =
      cast_run castf ts ((top ++ xs) :: stack) rv' := by
  cases xs with
  | nil =>
      refine ⟨rv, ?_⟩
      simp [wtoks_elems]
  | cons it more =>
      have h1 : ∀ x ∈ Item.scalars it, castf (dump x).1 = x := by
        intro x hx
        exact hc x (by simp [scalars_list, hx])
      have h2 : ∀ x ∈ scalars_list more, castf (dump x).1 = x := by
        intro x hx
        exact hc x (by simp [scalars_list, hx])
      have hshape : wtoks_elems dump (it :: more) ++ ts =
          wtoks_item dump it ++ (wtoks_elems dump more ++ ts) := by
        simp [wtoks_elems]
      rw [hshape]
      obtain ⟨rv1, hh1⟩ := cast_run_item castf dump it h1
        (wtoks_elems dump more ++ ts) top stack rv
      rw [hh1]
      obtain ⟨rv2, hh2⟩ := cast_run_elems castf dump more h2 ts
        (top ++ [it]) stack rv1
      rw [hh2]
      refine ⟨rv2, ?_⟩
      simp
end

/-- Reading back the writer's rendered bytes recovers the nested list. -/
theorem cast_render {α : Type} (castf : Bytes → α) (dump : α → Bytes × Nat)
    (xs : List (Item α)) (hc : ∀ x ∈ scalars_list xs, castf (dump x).1 = x) :
    ArrayCasterText.cast castf (render_list dump xs) = .ok xs := by
  show cast_run castf (tokenize (render_list dump xs)) [] none = .ok xs
  rw [tokenize_render_list]
  cases xs with
  | nil => rfl
  | cons y ys =>
      have hshape : wtoks_list dump (y :: ys) =
          .lbr :: (wtoks_elems dump (y :: ys) ++ ([.rbr] ++ [])) := by
        simp [wtoks_list]
      rw [hshape]
      simp only [cast_run]
      obtain ⟨rv2, h2⟩ := cast_run_elems castf dump (y :: ys) hc
        ([.rbr] ++ []) [] [] (some .root)
      rw [h2]
      simp [cast_run]

/-- C5.  For every nested list of scalars whose non-nil elements all dump to
the same OID under a registered text codec (`castf` inverting `dump` on the
list's scalars), parsing the text produced by the array text writer yields
the list back, including nil elements written as `NULL` and elements whose
dumped bytes required quoting and backslash-escaping.  (Rectangularity is
not needed: the round trip holds for arbitrary nesting.) -/
theorem array_text_round_trip {α : Type} (dump : α → Bytes × Nat)
    (castf : Bytes → α) (o : Nat) (xs : List (Item α))
    (hcast : ∀ x ∈ scalars_list xs, castf (dump x).1 = x)
    (hoid : ∀ x ∈ scalars_list xs, (dump x).2 = o) :
    ∃ bs oidr, TextListAdapter.adapt dump xs = .ok (bs, oidr)
      ∧ ArrayCasterText.cast castf bs = .ok xs := by
  obtain ⟨oidr, h⟩ := adapt_renders dump o xs hoid
  exact ⟨render_list dump xs, oidr, h, cast_render castf dump xs hcast⟩

/-- A text codec over raw bytes (dump to OID 25, cast is the identity), for
the round-trip witness. -/
def text_rt_dump (b : Bytes) : Bytes × Nat := (b, 25)

/-- The matching loader. -/
def text_rt_cast (b : Bytes) : Bytes := b

/-- A nested list with a nil element, an element needing quoting and
escaping (a quoted `"c"`), and one containing a brace. -/
def text_rt_list : List (Item Bytes) :=
  [.list [.scalar [97], .null], .list [.scalar [34, 99, 34], .scalar [123]]]

/-- Witness for `array_text_round_trip` at a concrete nested list. -/
theorem array_text_round_trip_witness :
    ∃ bs oidr, TextListAdapter.adapt text_rt_dump text_rt_list = .ok (bs, oidr)
      ∧ ArrayCasterText.cast text_rt_cast bs = .ok text_rt_list :=
  array_text_round_trip text_rt_dump text_rt_cast 25 text_rt_list
    (fun _ _ => rfl) (fun _ _ => rfl)

/-! ## Binary array codec (`BinaryListAdapter` / `ArrayCasterBinary`) -/

/-- `calc_dims` below the first element: walk the leftmost spine, recording
each nested list's length; an empty list on the spine is a `DataError`. -/
def spine_dims {α : Type} : Item α → Except String (List Nat)
  | .scalar _ => .ok []
  | .null => .ok []
  | .list [] => .error "lists cannot contain empty lists"
  | .list (y :: ys) =>
      match spine_dims y with
      | .error e => .error e
      | .ok ds => .ok ((y :: ys).length :: ds)

/-- The 12-byte empty-array payload `_struct_head.pack(0, 0, TEXT_OID)`. -/
def bin_empty_header : Bytes := pack_u32 0 ++ pack_u32 0 ++ pack_u32 TEXT_OID

/-- Assembling the final payload: `_struct_head.pack(len(dims), hasnull,
oid or TEXT_OID)`, the `(dim, 1)` pairs, then the element data, paired with
`_array_oid(oid)` (the source replaces a zero `oid` by `TEXT_OID` first). -/
def bin_assemble (dims : List Nat) (hasnull oid : Nat) (data : List Bytes) :
    Bytes × Nat :=
  let oid1 := if oid = 0 then TEXT_OID else oid
  (pack_u32 dims.length ++ pack_u32 hasnull ++ pack_u32 oid1
     ++ (dims.map fun d => pack_u32 d ++ pack_u32 1).flatten
     ++ data.flatten,
   array_oid oid1)

/-- One element of the last dimension after the transformer's adapt: a
`(bytes, oid)` pair runs the OID unification and is encoded as
`int32(len) ++ bytes`; `None` (the transformer's result for a `None` item)
sets `hasnull` and is encoded as `\xff\xff\xff\xff`. -/
def bin_elem_chunk (ad : Option (Bytes × Nat)) (oid hasnull : Nat) :
    Except String (Bytes × Nat × Nat) :=
  match ad with
  | some (bs, adoid) =>
      if oid = 0 then .ok (pack_u32 bs.length ++ bs, adoid, hasnull)
      else if oid ≠ adoid then .error "array contains different types"
      else .ok (pack_u32 bs.length ++ bs, oid, hasnull)
  | none => .ok ([255, 255, 255, 255], oid, 1)

mutual
/-- The transformer's binary adapt of one item (`self._tx.adapt(item,
Format.BINARY)`): a scalar through its dumper, `None` to `None`, and a
nested list through `BinaryListAdapter.adapt` itself (the adapter registered
for `list`), whose body is inlined here. -/
def bin_adapt_tx {α : Type} (dump : α → Bytes × Nat) :
    Item α → Except String (Option (Bytes × Nat))
  | .scalar x => .ok (some (dump x))
  | .null => .ok none
  | .list ys =>
      match ys with
      | [] => .ok (some (bin_empty_header, TEXT_ARRAY_OID))
      | y :: yr =>
          match spine_dims y with
          | .error e => .error e
          | .ok ds =>
              match (match ds with
                     | [] => bin_adapt_last dump (y :: yr) 0 0
                     | d2 :: r2 => bin_adapt_rows dump (y :: yr) d2 r2 0 0) with
              | .error e => .error e
              | .ok (data, oid0, hn0) =>
                  .ok (some (bin_assemble ((y :: yr).length :: ds)
                    hn0 oid0 data))

/-- The element loop of `adapt_list` at the last dimension: adapt each item,
run the OID unification and encode the chunk.  Returns the data chunks and
the final `(oid, hasnull)` state. -/
def bin_adapt_last {α : Type} (dump : α → Bytes × Nat) :
    List (Item α) → Nat → Nat → Except String (List Bytes × Nat × Nat)
  | [], oid, hasnull => .ok ([], oid, hasnull)
  | item :: rest, oid, hasnull =>
      match bin_adapt_tx dump item with
      | .error e => .error e
      | .ok ad =>
          match bin_elem_chunk ad oid hasnull with
          | .error e => .error e
          | .ok (chunk, oid1, hn1) =>
              match bin_adapt_last dump rest oid1 hn1 with
              | .error e => .error e
              | .ok (data, oid2, hn2) => .ok (chunk :: data, oid2, hn2)

/-- One item of a non-last dimension: it must itself be a list (else the
nesting depths are inconsistent), its length must equal the dimension
recorded for its depth, and it is recursed into (`adapt_list(item, dim+1)`,
the last dimension when no further dimension follows). -/
def bin_adapt_sub {α : Type} (dump : α → Bytes × Nat) :
    Item α → Nat → List Nat → Nat → Nat →
    Except String (List Bytes × Nat × Nat)
  | .list M, d2, r2, oid, hasnull =>
      if M.length = d2 then
        match r2 with
        | [] => bin_adapt_last dump M oid hasnull
        | d3 :: r3 => bin_adapt_rows dump M d3 r3 oid hasnull
      else .error "nested lists have inconsistent lengths"
  | .scalar _, _, _, _, _ => .error "nested lists have inconsistent depths"
  | .null, _, _, _, _ => .error "nested lists have inconsistent depths"

/-- The element loop of `adapt_list` at a non-last dimension. -/
def bin_adapt_rows {α : Type} (dump : α → Bytes × Nat) :
    List (Item α) → Nat → List Nat → Nat → Nat →
    Except String (List Bytes × Nat × Nat)
  | [], _, _, oid, hasnull => .ok ([], oid, hasnull)
  | item :: rest, d2, r2, oid, hasnull =>
      match bin_adapt_sub dump item d2 r2 oid hasnull with
      | .error e => .error e
      | .ok (data1, oid1, h1) =>
          match bin_adapt_rows dump rest d2 r2 oid1 h1 with
          | .error e => .error e
          | .ok (data2, oid2, h2) => .ok (data1 ++ data2, oid2, h2)
end

/-- `BinaryListAdapter.adapt`: the empty list short-circuits to the 12-byte
empty header with the `text[]` OID; otherwise the dimensions are computed by
walking the leftmost spine, the elements are encoded (the length check at
dimension 0 always passes, `dims[0]` being the input's length), and the
payload is assembled. -/
def BinaryListAdapter.adapt {α : Type} (dump : α → Bytes × Nat)
    (obj : List (Item α)) : Except String (Bytes × Nat) :=
  match obj with
  | [] => .ok (bin_empty_header, TEXT_ARRAY_OID)
  | x :: xs =>
      match spine_dims x with
      | .error e => .error e
      | .ok ds =>
          match (match ds with
                 | [] => bin_adapt_last dump (x :: xs) 0 0
                 | d2 :: r2 => bin_adapt_rows dump (x :: xs) d2 r2 0 0) with
          | .error e => .error e
          | .ok (data, oid0, hn0) =>
              .ok (bin_assemble ((x :: xs).length :: ds) hn0 oid0 data)

/-- Reading one element in `consume`: `int32(size)` then `size` bytes, with
`\xff\xff\xff\xff` (`-1`) meaning NULL.  Other negative sizes (which only
arise on malformed input) are treated as their unsigned reading; slices are
clamped as in the source language. -/
def bin_read_elem {α : Type} (fcast : Bytes → α) (data : Bytes) (p : Nat) :
    Except String (Item α × Nat) :=
  if data.length < p + 4 then .error "struct.error: unpack_from past the end"
  else
    let size := be32 ((data.drop p).take 4)
    if size = 4294967295 then .ok (.null, p + 4)
    else .ok (.scalar (fcast ((data.drop (p + 4)).take size)), p + 4 + size)

mutual
/-- `agg(dims)`: no dimension left consumes one element; otherwise a list of
`dim` aggregates of the remaining dimensions, in row-major order. -/
def bin_agg {α : Type} (fcast : Bytes → α) (data : Bytes) :
    List Nat → Nat → Except String (Item α × Nat)
  | [], p => bin_read_elem fcast data p
  | d :: rest, p =>
      match bin_agg_list fcast data d rest p with
      | .error e => .error e
      | .ok (l, p1) => .ok (.list l, p1)
termination_by ds _ => (ds.length, 0)

/-- `[agg(dims) for _ in range(dim)]`, threading the read position. -/
def bin_agg_list {α : Type} (fcast : Bytes → α) (data : Bytes) :
    Nat → List Nat → Nat → Except String (List (Item α) × Nat)
  | 0, _, p => .ok ([], p)
  | k + 1, rest, p =>
      match bin_agg fcast data rest p with
      | .error e => .error e
      | .ok (it, p1) =>
          match bin_agg_list fcast data k rest p1 with
          | .error e => .error e
          | .ok (l, p2) => .ok (it :: l, p2)
termination_by k rest _ => (rest.length, k + 1)
end

/-- `ArrayCasterBinary.cast`: unpack the head (requiring at least 12 bytes),
return `[]` when `ndims` is zero, otherwise read the `ndims` dimension pairs
and aggregate the elements from position `12 + 8 * ndims`. -/
def ArrayCasterBinary.cast {α : Type} (fcast : Bytes → α) (data : Bytes) :
    Except String (List (Item α)) :=
  if data.length < 12 then
    .error "struct.error: unpack_from requires at least 12 bytes"
  else
    let ndims := be32 (data.take 4)
    if ndims = 0 then .ok []
    else if data.length < 12 + 8 * ndims then
      .error "struct.error: unpack_from past the end"
    else
      let dims := (List.range ndims).map fun k =>
        be32 ((data.drop (12 + 8 * k)).take 4)
      match dims with
      | [] => .ok []
      | d0 :: drest =>
          match bin_agg_list fcast data d0 drest (12 + 8 * ndims) with
          | .error e => .error e
          | .ok (l, _) => .ok l

mutual
/-- Whether an item's nesting contains an empty list. -/
def has_empty_item {α : Type} : Item α → Bool
  | .scalar _ => false
  | .null => false
  | .list ys => ys.isEmpty || has_empty_elems ys

/-- Whether a forest contains an empty list. -/
def has_empty_elems {α : Type} : List (Item α) → Bool
  | [] => false
  | it :: rest => has_empty_item it || has_empty_elems rest
end

/-- Whether the leftmost spine below an item reaches an empty list (the
condition under which `calc_dims` raises). -/
def spine_bad {α : Type} : Item α → Bool
  | .scalar _ => false
  | .null => false
  | .list [] => true
  | .list (y :: _) => spine_bad y

/-- The dimension list along the leftmost spine below an item (meaningful
when the spine has no empty list). -/
def dims_of {α : Type} : Item α → List Nat
  | .scalar _ => []
  | .null => []
  | .list [] => []
  | .list (y :: ys) => (y :: ys).length :: dims_of y

theorem spine_dims_of_bad {α : Type} (it : Item α) :
    spine_bad it = true →
      spine_dims it = .error "lists cannot contain empty lists" := by
  induction it using spine_bad.induct with
  | case1 x => intro h; simp [spine_bad] at h
  | case2 => intro h; simp [spine_bad] at h
  | case3 => intro _; rfl
  | case4 y yr ih =>
      intro h
      have hy : spine_bad y = true := by simpa [spine_bad] using h
      simp [spine_dims, ih hy]

theorem spine_dims_of_good {α : Type} (it : Item α) :
    spine_bad it = false → spine_dims it = .ok (dims_of it) := by
  induction it using spine_bad.induct with
  | case1 x => intro _; rfl
  | case2 => intro _; rfl
  | case3 => intro h; simp [spine_bad] at h
  | case4 y yr ih =>
      intro h
      have hy : spine_bad y = false := by simpa [spine_bad] using h
      simp [spine_dims, ih hy, dims_of]

mutual
/-- Whether an item violates the dimensions (`dims`) at depth `d`: it is a
nested list whose length differs from the dimension established for its
depth, or some deeper list does. -/
def ragged_item {α : Type} (dims : List Nat) : Nat → Item α → Bool
  | _, .scalar _ => false
  | _, .null => false
  | d, .list M =>
      (match dims[d]? with
       | some dd => decide (M.length ≠ dd)
       | none => false) || ragged_elems dims (d + 1) M

/-- Whether some element of a forest at depth `d` is ragged. -/
def ragged_elems {α : Type} (dims : List Nat) : Nat → List (Item α) → Bool
  | _, [] => false
  | d, it :: rest => ragged_item dims d it || ragged_elems dims d rest
end

/-- Whether a top-level nested list is ragged with respect to `dims` (the
top list at depth 0, its element lists at depth 1). -/
def ragged_top {α : Type} (dims : List Nat) (obj : List (Item α)) : Bool :=
  (match dims[0]? with
   | some dd => decide (obj.length ≠ dd)
   | none => false) || ragged_elems dims 1 obj

mutual
theorem ragged_item_past {α : Type} (dims : List Nat) (d : Nat)
    (it : Item α) (h : dims.length ≤ d) : ragged_item dims d it = false := by
  cases it with
  | scalar x => rfl
  | null => rfl
  | list M =>
      have h0 : dims[d]? = none := by
        simp [List.getElem?_eq_none_iff, h]
      have h1 := ragged_elems_past dims (d + 1) M (Nat.le_succ_of_le h)
      simp [ragged_item, h0, h1]

theorem ragged_elems_past {α : Type} (dims : List Nat) (d : Nat)
    (L : List (Item α)) (h : dims.length ≤ d) :
    ragged_elems dims d L = false := by
  cases L with
  | nil => rfl
  | cons it rest =>
      have h1 := ragged_item_past dims d it h
      have h2 := ragged_elems_past dims d rest h
      simp [ragged_elems, h1, h2]
end

mutual
theorem bin_sub_not_ragged {α : Type} (dump : α → Bytes × Nat)
    (item : Item α) :
    ∀ (d2 : Nat) (r2 : List Nat) (oid hn : Nat)
      (v : List Bytes × Nat × Nat) (dims : List Nat) (d : Nat),
      bin_adapt_sub dump item d2 r2 oid hn = .ok v →
      dims.drop d = d2 :: r2 →
      ragged_item dims d item = false := by
  intro d2 r2 oid hn v dims d hok hdrop
  cases item with
  | scalar x => cases hok
  | null => cases hok
  | list M =>
      by_cases hlen : M.length = d2
      · have hget : dims[d]? = some d2 := by
          have h0 : (dims.drop d)[0]? = dims[d + 0]? :=
            List.getElem?_drop dims d 0
          rw [hdrop] at h0
          simpa using h0.symm
        have hdlt : d < dims.length := by
          by_contra hge
          have : dims.drop d = [] :=
            List.drop_eq_nil_of_le (Nat.le_of_not_lt hge)
          rw [this] at hdrop
          cases hdrop
        cases r2 with
        | nil =>
            have hlen1 : dims.length = d + 1 := by
              have hd : (dims.drop d).length = dims.length - d := by
                simp
              rw [hdrop] at hd
              simp at hd
              omega
            have hpast := ragged_elems_past dims (d + 1) M (by omega)
            simp [ragged_item, hget, hlen, hpast]
        | cons d3 r3 =>
            simp only [bin_adapt_sub, if_pos hlen] at hok
            have hdrop1 : dims.drop (d + 1) = d3 :: r3 := by
              have h0 : (dims.drop d).drop 1 = dims.drop (d + 1) :=
                List.drop_drop 1 d dims
              rw [hdrop] at h0
              simpa using h0.symm
            have := bin_rows_not_ragged dump M d3 r3 oid hn v dims (d + 1)
              hok hdrop1
            simp [ragged_item, hget, hlen, this]
      · simp [bin_adapt_sub, hlen] at hok

theorem bin_rows_not_ragged {α : Type} (dump : α → Bytes × Nat)
    (L : List (Item α)) :
    ∀ (d2 : Nat) (r2 : List Nat) (oid hn : Nat)
      (v : List Bytes × Nat × Nat) (dims : List Nat) (d : Nat),
      bin_adapt_rows dump L d2 r2 oid hn = .ok v →
      dims.drop d = d2 :: r2 →
      ragged_elems dims d L = false := by
  intro d2 r2 oid hn v dims d hok hdrop
  cases L with
  | nil => rfl
  | cons item rest =>
      simp only [bin_adapt_rows] at hok
      cases hsub : bin_adapt_sub dump item d2 r2 oid hn with
      | error e => rw [hsub] at hok; cases hok
      | ok w =>
          rw [hsub] at hok
          simp only [] at hok
          obtain ⟨data1, oid1, h1⟩ := w
          cases hrest : bin_adapt_rows dump rest d2 r2 oid1 h1 with
          | error e => rw [hrest] at hok; cases hok
          | ok w2 =>
              have ha := bin_sub_not_ragged dump item d2 r2 oid hn
                ⟨data1, oid1, h1⟩ dims d hsub hdrop
              have hb := bin_rows_not_ragged dump rest d2 r2 oid1 h1 w2
                dims d hrest hdrop
              simp [ragged_elems, ha, hb]
end

/-- C6 (amended).  The binary array writer raises `DataError` for every
non-empty input whose leftmost spine contains an empty list (the `calc_dims`
error), and for every input that is ragged with respect to the established
dimensions: some nested list at a depth for which a dimension was
established has a different length.  (An empty inner list at element depth
is instead dumped through the transformer as a nested empty array and does
not raise; see the counterexample.)  All errors this adapter raises are
`DataError`s. -/
theorem binary_adapt_rejects {α : Type} (dump : α → Bytes × Nat)
    (x : Item α) (xs : List (Item α))
    (h : spine_bad x = true ∨
      ragged_top ((x :: xs).length :: dims_of x) (x :: xs) = true) :
    ∃ msg, BinaryListAdapter.adapt dump (x :: xs) = .error msg := by
  by_cases hsb : spine_bad x = true
  · refine ⟨"lists cannot contain empty lists", ?_⟩
    simp [BinaryListAdapter.adapt, spine_dims_of_bad x hsb]
  · have hsbf : spine_bad x = false := by
      cases hh : spine_bad x
      · rfl
      · exact absurd hh hsb
    have hragged : ragged_top ((x :: xs).length :: dims_of x) (x :: xs)
        = true := h.resolve_left hsb
    have hre : ragged_elems ((x :: xs).length :: dims_of x) 1 (x :: xs)
        = true := by
      simpa [ragged_top] using hragged
    cases hds : dims_of x with
    | nil =>
        have := ragged_elems_past ((x :: xs).length :: dims_of x) 1 (x :: xs)
          (by simp [hds])
        rw [this] at hre
        cases hre
    | cons d2 r2 =>
        cases hrow : bin_adapt_rows dump (x :: xs) d2 r2 0 0 with
        | error e =>
            refine ⟨e, ?_⟩
            simp [BinaryListAdapter.adapt, spine_dims_of_good x hsbf, hds,
              hrow]
        | ok v =>
            have := bin_rows_not_ragged dump (x :: xs) d2 r2 0 0 v
              ((x :: xs).length :: dims_of x) 1 hrow (by simp [hds])
            rw [this] at hre
            cases hre

/-- A binary codec over raw bytes (dump to the text OID), for the binary
array theorems. -/
def bin_rt_dump (b : Bytes) : Bytes × Nat := (b, 25)

/-- Witness for `binary_adapt_rejects` at a concrete ragged input
`[[a, b], [c]]`. -/
theorem binary_adapt_rejects_witness :
    ∃ msg, BinaryListAdapter.adapt bin_rt_dump
      [Item.list [Item.scalar [97], Item.scalar [98]],
       Item.list [Item.scalar [99]]] = .error msg :=
  binary_adapt_rejects bin_rt_dump
    (Item.list [Item.scalar [97], Item.scalar [98]])
    [Item.list [Item.scalar [99]]]
    (Or.inr (by rfl))

/-- C6 counterexample.  The input `[None, []]` contains an empty inner list,
yet the writer returns a payload: the `None` element leaves the unification
OID at 0, the empty list at element depth is dumped through the transformer
as a nested empty array fixing the OID to `text[]` (1009), and the adapt
succeeds — no `DataError` is raised. -/
theorem binary_empty_inner_accepted :
    has_empty_elems [Item.null, Item.list ([] : List (Item Bytes))] = true
    ∧ BinaryListAdapter.adapt bin_rt_dump [Item.null, Item.list []] =
      .ok ([0, 0, 0, 1, 0, 0, 0, 1, 0, 0, 3, 241,
            0, 0, 0, 2, 0, 0, 0, 1,
            255, 255, 255, 255,
            0, 0, 0, 12, 0, 0, 0, 0, 0, 0, 0, 0, 0, 0, 0, 25], 1009) :=
  ⟨rfl, rfl⟩

/-- C10.  The empty list round-trips through the binary array codec even
though empty inner lists are rejected elsewhere: the writer returns exactly
the 12-byte header with `ndims = 0`, `hasnull = 0` and the text element OID
(25), paired with the `text[]` array OID (1009); and the reader returns the
empty list for any payload of at least 12 bytes whose header has
`ndims = 0`. -/
theorem binary_empty_array {α : Type} (dump : α → Bytes × Nat)
    (fcast : Bytes → α) (data : Bytes)
    (hlen : 12 ≤ data.length) (hnd : be32 (data.take 4) = 0) :
    BinaryListAdapter.adapt dump ([] : List (Item α)) =
      .ok ([0, 0, 0, 0, 0, 0, 0, 0, 0, 0, 0, 25], 1009)
    ∧ ArrayCasterBinary.cast fcast data = .ok ([] : List (Item α)) := by
  constructor
  · rfl
  · simp only [ArrayCasterBinary.cast, hnd]
    rw [if_neg (by omega)]
    simp

/-- Witness for `binary_empty_array` at a concrete all-zero header. -/
theorem binary_empty_array_witness :
    BinaryListAdapter.adapt bin_rt_dump ([] : List (Item Bytes)) =
      .ok ([0, 0, 0, 0, 0, 0, 0, 0, 0, 0, 0, 25], 1009)
    ∧ ArrayCasterBinary.cast (fun b => b)
        [0, 0, 0, 0, 0, 0, 0, 0, 0, 0, 0, 25] =
      .ok ([] : List (Item Bytes)) :=
  binary_empty_array bin_rt_dump (fun b => b)
    [0, 0, 0, 0, 0, 0, 0, 0, 0, 0, 0, 25] (by decide) (by decide)
